import Mathlib

/-! Matrix micro-benchmark: `matrix_bench.c` and `matrix_bench_plot.c`

A shallow embedding of the two C programs and the properties of their
`multiply`, `create_matrix`, `init_matrix_rand` and `main`.

Conventions of the embedding.

* A C `int` is an `Int` (no arithmetic on dimensions can overflow: the only
  operations are comparisons with a counter that starts at `0`).
* `double **data` is a list of rows, each a list of elements.  Every access
  `data[i][j]` is bounds-checked; an access outside the storage, which is
  undefined behaviour in C, ends the run with `Fault.out_of_bounds`.
* The element type is a parameter `α` carrying the operations the code uses
  (`0.0`, `+`, `*`, and for the random fill a conversion from `int` and `/`).
  Statements proved for every `α` therefore do not depend on how the
  arithmetic of `double` rounds.
* `malloc` is an oracle of the heap: it tells whether a request succeeds and
  what the (indeterminate) contents of fresh storage are.
* `exit(EXIT_FAILURE)` after a diagnostic is the error side of `Except`.
-/

namespace MatrixBench

/-- The ways in which a run leaves the normal path of the code. -/
inductive Fault where
  /-- The path `perror("Failed to allocate memory for matrix rows"); exit(EXIT_FAILURE);`. -/
  | alloc_rows
  /-- The path `perror("Failed to allocate memory for matrix columns"); exit(EXIT_FAILURE);`. -/
  | alloc_cols
  /-- The path `fprintf(stderr, "Matrix dimension mismatch ..."); exit(EXIT_FAILURE);`. -/
  | mismatch
  /-- An index outside the allocated storage: undefined behaviour in C. -/
  | out_of_bounds
  deriving DecidableEq, Repr

/-- The text a fault writes on standard error before the process ends
(`perror` appends the text of `errno`, which is left out). -/
def Fault.diagnostic : Fault → Option String
  | .alloc_rows => some "Failed to allocate memory for matrix rows"
  | .alloc_cols => some "Failed to allocate memory for matrix columns"
  | .mismatch => some "Matrix dimension mismatch for multiplication.\n"
  | .out_of_bounds => none

/-- The struct `Matrix` of both files: `double **data; int rows; int cols;`. -/
structure Matrix (α : Type) where
  data : List (List α)
  rows : Int
  cols : Int
  deriving DecidableEq, Repr

/-- The heap as the code sees it: whether a `malloc` of so many bytes
succeeds, and the indeterminate value found at row `i`, column `j` of
storage that was allocated and not yet written. -/
structure Heap (α : Type) where
  malloc : Nat → Bool
  fresh : Nat → Nat → α

/-- The value of `sizeof(double *)` (LP64). -/
def sizeof_ptr : Nat := 8

/-- The value of `sizeof(double)`. -/
def sizeof_double : Nat := 8

/-- The argument `count * size` of `malloc`: the `int` count is converted to
`size_t` and the product is taken modulo `2^64`. -/
def request (count : Int) (size : Nat) : Nat :=
  ((count * (size : Int)) % (2 ^ 64 : Int)).toNat

/-- Read `d[i][j]`. -/
def get2 {α : Type} (d : List (List α)) (i j : Nat) : Except Fault α :=
  match d[i]? with
  | none => throw Fault.out_of_bounds
  | some r =>
    match r[j]? with
    | none => throw Fault.out_of_bounds
    | some x => pure x

/-- Write `d[i][j] = v`. -/
def set2 {α : Type} (d : List (List α)) (i j : Nat) (v : α) :
    Except Fault (List (List α)) :=
  match d[i]? with
  | none => throw Fault.out_of_bounds
  | some r =>
    if j < r.length then pure (d.set i (r.set j v)) else throw Fault.out_of_bounds

/-- The element `m.data[i][j]` as a plain value (`0` outside the storage). -/
def Matrix.elem {α : Type} [Zero α] (m : Matrix α) (i j : Nat) : α :=
  (m.data.getD i []).getD j 0

/-- A matrix `m` is an `r × c` matrix: its fields say so and its storage
has exactly `r` rows of exactly `c` elements. -/
def IsShape {α : Type} (m : Matrix α) (r c : Nat) : Prop :=
  m.rows = (r : Int) ∧ m.cols = (c : Int) ∧ m.data.length = r ∧
    ∀ row ∈ m.data, row.length = c

instance {α : Type} (m : Matrix α) (r c : Nat) : Decidable (IsShape m r c) := by
  unfold IsShape; infer_instance

/-- Every `malloc` request succeeds. -/
def Heap.Succeeds {α : Type} (h : Heap α) : Prop := ∀ n, h.malloc n = true

/-! ## Tables: storage described by a function of the indices -/

/-- The storage of `r` rows of `c` elements whose element `(i, j)` is `f i j`. -/
def tab {α : Type} (r c : Nat) (f : Nat → Nat → α) : List (List α) :=
  (List.range r).map (fun i => (List.range c).map (f i))

/-- The function `f` changed at `(i, j)` to `v`. -/
def upd {α : Type} (f : Nat → Nat → α) (i j : Nat) (v : α) : Nat → Nat → α :=
  fun i' j' => if i' = i ∧ j' = j then v else f i' j'

/-- The running sum `s + a[i][0]*b[0][j] + ... + a[i][n-1]*b[n-1][j]`,
added from left to right in increasing `k`. -/
def dotAcc {α : Type} [Zero α] [Add α] [Mul α] (a b : Matrix α) (i j : Nat) (s : α)
    (n : Nat) : α :=
  (List.range n).foldl (fun acc k => acc + a.elem i k * b.elem k j) s

/-- The sum over `k = 0..n-1` of `a[i][k] * b[k][j]`, accumulated from left
to right in increasing `k` starting from `0`. -/
def dotProduct {α : Type} [Zero α] [Add α] [Mul α] (a b : Matrix α) (i j n : Nat) : α :=
  dotAcc a b i j 0 n

/-! ## `matrix_bench_plot.c`: the parametrized variant -/

namespace Plot

/-- The function `create_matrix(int rows, int cols)` of `matrix_bench_plot.c`.
Row `i` is allocated in iteration `i` of the loop, so `m.data[i] = ...`
extends the rows built so far by one. -/
def create_matrix {α : Type} (h : Heap α) (rows cols : Int) : Except Fault (Matrix α) := do
  if h.malloc (request rows sizeof_ptr) = false then
    throw Fault.alloc_rows
  let data ← (List.range rows.toNat).foldlM
    (fun (d : List (List α)) (i : Nat) =>
      if h.malloc (request cols sizeof_double) = false then
        throw Fault.alloc_cols
      else
        pure (d ++ [(List.range cols.toNat).map (h.fresh i)]))
    []
  pure { data := data, rows := rows, cols := cols }

/-- The function `multiply(Matrix a, Matrix b)` of `matrix_bench_plot.c`. -/
def multiply {α : Type} [Zero α] [Add α] [Mul α] (h : Heap α) (a b : Matrix α) :
    Except Fault (Matrix α) := do
  if a.cols ≠ b.rows then
    throw Fault.mismatch
  let c ← create_matrix h a.rows b.cols
  let data ← (List.range a.rows.toNat).foldlM
    (fun (d : List (List α)) (i : Nat) =>
      (List.range b.cols.toNat).foldlM
        (fun (d : List (List α)) (j : Nat) => do
          let d ← set2 d i j 0
          (List.range a.cols.toNat).foldlM
            (fun (d : List (List α)) (k : Nat) => do
              let x ← get2 a.data i k
              let y ← get2 b.data k j
              let s ← get2 d i j
              set2 d i j (s + x * y))
            d)
        d)
    c.data
  pure { c with data := data }

end Plot

/-! ## `matrix_bench.c`: the fixed-size variant -/

namespace Fixed

/-- The constant `#define ROWS 100`. -/
def ROWS : Int := 100

/-- The constant `#define COLS 100`. -/
def COLS : Int := 100

/-- The function `create_matrix()` of `matrix_bench.c`: no parameters, the
dimensions are the constants `ROWS` and `COLS`. -/
def create_matrix {α : Type} (h : Heap α) : Except Fault (Matrix α) := do
  if h.malloc (request ROWS sizeof_ptr) = false then
    throw Fault.alloc_rows
  let data ← (List.range ROWS.toNat).foldlM
    (fun (d : List (List α)) (i : Nat) =>
      if h.malloc (request COLS sizeof_double) = false then
        throw Fault.alloc_cols
      else
        pure (d ++ [(List.range COLS.toNat).map (h.fresh i)]))
    []
  pure { data := data, rows := ROWS, cols := COLS }

/-- The function `multiply(Matrix a, Matrix b)` of `matrix_bench.c`: the same
loops as in the parametrized variant over a result made by `create_matrix()`. -/
def multiply {α : Type} [Zero α] [Add α] [Mul α] (h : Heap α) (a b : Matrix α) :
    Except Fault (Matrix α) := do
  if a.cols ≠ b.rows then
    throw Fault.mismatch
  let c ← create_matrix h
  let data ← (List.range a.rows.toNat).foldlM
    (fun (d : List (List α)) (i : Nat) =>
      (List.range b.cols.toNat).foldlM
        (fun (d : List (List α)) (j : Nat) => do
          let d ← set2 d i j 0
          (List.range a.cols.toNat).foldlM
            (fun (d : List (List α)) (k : Nat) => do
              let x ← get2 a.data i k
              let y ← get2 b.data k j
              let s ← get2 d i j
              set2 d i j (s + x * y))
            d)
        d)
    c.data
  pure { c with data := data }

end Fixed

/-! ## Code common to both files -/

/-- The function `init_matrix_rand(Matrix m)`, the same in both files.
`RAND_MAX` is the constant of `<stdlib.h>`; `rand k` is the value returned by
call number `k` of `rand()`, and the number of calls made so far is threaded
through the loops.  Returns the filled matrix and the new number of calls. -/
def init_matrix_rand {α : Type} [IntCast α] [Div α] (RAND_MAX : Int) (rand : Nat → Int)
    (m : Matrix α) (calls : Nat) : Except Fault (Matrix α × Nat) := do
  let (data, calls) ← (List.range m.rows.toNat).foldlM
    (fun (st : List (List α) × Nat) (i : Nat) =>
      (List.range m.cols.toNat).foldlM
        (fun (st : List (List α) × Nat) (j : Nat) => do
          let d ← set2 st.1 i j (((rand st.2 : Int) : α) / ((RAND_MAX : Int) : α))
          pure (d, st.2 + 1))
        st)
    (m.data, calls)
  pure ({ m with data := data }, calls)

/-- What the surroundings supply to a run of `main`. -/
structure World (α : Type) where
  heap : Heap α
  /-- The constant `RAND_MAX` of `<stdlib.h>`. -/
  RAND_MAX : Int
  /-- The values returned by the successive calls of `rand()`. -/
  rand : Nat → Int
  /-- The library function `atoi`. -/
  atoi : String → Int
  /-- The value of `time(NULL)`. -/
  time : Int
  /-- The two readings `(tv_sec, tv_nsec)` of `clock_gettime(CLOCK_MONOTONIC, _)`. -/
  clock_start : Int × Int
  clock_end : Int × Int

/-- What a run of `main` does that can be observed, in order. -/
inductive Event (α : Type) where
  /-- Text written on standard error by `main`. -/
  | stderr (text : String)
  /-- The line `printf("%f\n", time_spent)`. -/
  | stdout_time (time_spent : α)
  /-- The call `srand(seed)`. -/
  | srand (seed : Int)
  /-- A matrix was created by `create_matrix(rows, cols)`. -/
  | create (rows cols : Int)
  /-- A matrix was filled by `init_matrix_rand`. -/
  | init
  /-- A reading of the clock. -/
  | clock
  /-- A product was computed by `multiply`. -/
  | multiply
  /-- A matrix was released by `free_matrix`. -/
  | free
  deriving DecidableEq, Repr

/-- A run of `main`: the events in order and how the run ended, either by
`return n` (`.ok n`) or inside a call by a fault (`.error f`, which carries the
diagnostic of the fault). -/
structure Run (α : Type) where
  trace : List (Event α)
  status : Except Fault Int

namespace Plot

/-- The usage message `fprintf(stderr, "Usage: %s <size>\n", argv[0])`. -/
def usage (prog : String) : String := "Usage: " ++ prog ++ " <size>\n"

/-- The function `main(int argc, char **argv)` of `matrix_bench_plot.c`.  The
program name `prog` is `argv[0]` and `args` are `argv[1], ..., argv[argc-1]`. -/
def main {α : Type} [Zero α] [Add α] [Mul α] [IntCast α] [Div α] (w : World α)
    (prog : String) (args : List String) : Run α :=
  let argv := prog :: args
  let argc : Int := (argv.length : Int)
  if argc ≠ 2 then
    { trace := [Event.stderr (usage (argv.getD 0 ""))], status := .ok 1 }
  else
    let size := w.atoi (argv.getD 1 "")
    let t := [Event.srand w.time]
    match create_matrix w.heap size size with
    | .error f => { trace := t, status := .error f }
    | .ok A =>
    let t := t ++ [Event.create size size]
    match create_matrix w.heap size size with
    | .error f => { trace := t, status := .error f }
    | .ok B =>
    let t := t ++ [Event.create size size]
    match init_matrix_rand w.RAND_MAX w.rand A 0 with
    | .error f => { trace := t, status := .error f }
    | .ok (A, calls) =>
    let t := t ++ [Event.init]
    match init_matrix_rand w.RAND_MAX w.rand B calls with
    | .error f => { trace := t, status := .error f }
    | .ok (B, _) =>
    let t := t ++ [Event.init, Event.clock]
    match multiply w.heap A B with
    | .error f => { trace := t, status := .error f }
    | .ok _ =>
    let time_spent : α :=
      (((w.clock_end.1 - w.clock_start.1 : Int) : α)
        + ((w.clock_end.2 - w.clock_start.2 : Int) : α) / ((1000000000 : Int) : α))
    { trace := t ++ [Event.multiply, Event.clock, Event.stdout_time time_spent,
        Event.free, Event.free, Event.free],
      status := .ok 0 }

end Plot

/-! ## Matrices and values the properties speak of -/

/-- The `n × n` identity matrix. -/
def identity {α : Type} [Zero α] [One α] (n : Nat) : Matrix α :=
  { data := tab n n (fun i j => if i = j then 1 else 0), rows := n, cols := n }

/-- The all-zero `r × c` matrix. -/
def zeros {α : Type} [Zero α] (r c : Nat) : Matrix α :=
  { data := tab r c (fun _ _ => 0), rows := r, cols := c }

/-- A matrix is well formed: `rows ≥ 0` rows, each of `cols ≥ 0` elements. -/
def WellFormed {α : Type} (m : Matrix α) : Prop :=
  0 ≤ m.rows ∧ 0 ≤ m.cols ∧ m.data.length = m.rows.toNat ∧
    ∀ row ∈ m.data, row.length = m.cols.toNat

instance {α : Type} (m : Matrix α) : Decidable (WellFormed m) := by
  unfold WellFormed; infer_instance

/-- The values of a C `double` (IEC 60559): the finite numbers, the two
infinities and the NaN.  A finite number is kept as the rational it denotes:
the rounding of finite results, overflow and the sign of zero are not
represented. -/
inductive Dbl where
  | fin (q : ℚ)
  | inf (negative : Bool)
  | nan
  deriving DecidableEq

namespace Dbl

/-- Addition of `double`: a NaN operand gives NaN, `∞ + (-∞)` is NaN. -/
def add : Dbl → Dbl → Dbl
  | nan, _ => nan
  | _, nan => nan
  | inf s, inf t => if s = t then inf s else nan
  | inf s, fin _ => inf s
  | fin _, inf t => inf t
  | fin x, fin y => fin (x + y)

/-- Multiplication of `double`: a NaN operand gives NaN, `∞ * 0` is NaN, the
sign of an infinite product is the product of the signs. -/
def mul : Dbl → Dbl → Dbl
  | nan, _ => nan
  | _, nan => nan
  | inf s, inf t => inf (xor s t)
  | inf s, fin y => if y = 0 then nan else inf (xor s (decide (y < 0)))
  | fin x, inf t => if x = 0 then nan else inf (xor (decide (x < 0)) t)
  | fin x, fin y => fin (x * y)

instance : Zero Dbl := ⟨fin 0⟩
instance : One Dbl := ⟨fin 1⟩
instance : Add Dbl := ⟨add⟩
instance : Mul Dbl := ⟨mul⟩

/-- The value is a finite number: neither an infinity nor a NaN. -/
def isFinite : Dbl → Bool
  | fin _ => true
  | _ => false

end Dbl

/-- Every element of the storage of `m` is a finite number. -/
def AllFinite (m : Matrix Dbl) : Prop := ∀ row ∈ m.data, ∀ x ∈ row, x.isFinite = true

instance (m : Matrix Dbl) : Decidable (AllFinite m) := by
  unfold AllFinite; infer_instance

/-- A rounding of the exact result of an operation to a `double`, as far as
the random fill needs it: on the non-negative numbers it keeps the order, and
it leaves `0` and `1`, which are `double` values, as they are.  Every rounding
direction of IEC 60559 is of this kind. -/
def IsRounding (rnd : ℚ → ℚ) : Prop :=
  (∀ x y, 0 ≤ x → x ≤ y → rnd x ≤ rnd y) ∧ rnd 0 = 0 ∧ rnd 1 = 1

/-- The conversion `(double)z` of an `int`, rounded by `rnd`. -/
def Dbl.ofInt (rnd : ℚ → ℚ) (z : Int) : Dbl := Dbl.fin (rnd (z : ℚ))

/-- Division of `double`, the exact quotient rounded by `rnd`: a NaN operand
gives NaN, `∞ / ∞` and `0 / 0` are NaN, a non-zero number over `0` is an
infinity, a finite number over an infinity is `0`. -/
def Dbl.div (rnd : ℚ → ℚ) : Dbl → Dbl → Dbl
  | Dbl.nan, _ => Dbl.nan
  | _, Dbl.nan => Dbl.nan
  | Dbl.inf _, Dbl.inf _ => Dbl.nan
  | Dbl.inf s, Dbl.fin y => Dbl.inf (xor s (decide (y < 0)))
  | Dbl.fin _, Dbl.inf _ => Dbl.fin 0
  | Dbl.fin x, Dbl.fin y =>
    if y = 0 then (if x = 0 then Dbl.nan else Dbl.inf (decide (x < 0)))
    else Dbl.fin (rnd (x / y))

/-- The values of `double` with the conversion from `int` and the division
that round by `rnd`. -/
structure Rounded (rnd : ℚ → ℚ) where
  val : Dbl

instance (rnd : ℚ → ℚ) : IntCast (Rounded rnd) := ⟨fun z => ⟨Dbl.ofInt rnd z⟩⟩

instance (rnd : ℚ → ℚ) : Div (Rounded rnd) := ⟨fun x y => ⟨Dbl.div rnd x.val y.val⟩⟩

instance (rnd : ℚ → ℚ) : Zero (Rounded rnd) := ⟨⟨0⟩⟩

/-- The integer nearest to `x`, a tie going to the even one (the default
rounding direction of IEC 60559). -/
def roundEven (x : ℚ) : ℤ :=
  if x - ⌊x⌋ < 1 / 2 then ⌊x⌋
  else if 1 / 2 < x - ⌊x⌋ then ⌊x⌋ + 1
  else if ⌊x⌋ % 2 = 0 then ⌊x⌋ else ⌊x⌋ + 1

/-- The exponent of the binade of the positive number `q` in `double`: the
`e` with `2^e ≤ q < 2^(e+1)`, and `-1022` for the subnormal numbers. -/
def exponent (q : ℚ) : ℤ := max (Int.log 2 q) (-1022)

/-- The positive number `q` rounded to the nearest number with a significand
of 53 bits, as in `double`, a tie going to the even significand (gradual
underflow included; overflow is left to `Dbl.round`). -/
def nearest53 (q : ℚ) : ℚ :=
  (roundEven (q / (2 : ℚ) ^ (exponent q - 52)) : ℚ) * (2 : ℚ) ^ (exponent q - 52)

/-- Rounding to the nearest number with a significand of 53 bits, ties to even. -/
def round53 (q : ℚ) : ℚ :=
  if q = 0 then 0 else if 0 < q then nearest53 q else - nearest53 (-q)

/-- The exact result of an operation made a `double`: rounded to nearest, ties
to even, and an infinity when the rounded magnitude reaches `2^1024`. -/
def Dbl.round : Dbl → Dbl
  | Dbl.fin q =>
    if (2 : ℚ) ^ (1024 : ℤ) ≤ |round53 q| then Dbl.inf (decide (q < 0)) else Dbl.fin (round53 q)
  | x => x

/-- The values of `double` with the `+` and `*` of IEC 60559 binary64: the
exact result rounded by `Dbl.round` (the sign of zero is not represented). -/
structure Binary64 where
  val : Dbl

instance : Zero Binary64 := ⟨⟨Dbl.fin 0⟩⟩

instance : Add Binary64 := ⟨fun x y => ⟨Dbl.round (x.val + y.val)⟩⟩

instance : Mul Binary64 := ⟨fun x y => ⟨Dbl.round (x.val * y.val)⟩⟩

/-- A heap on which every request succeeds and fresh storage reads `v`. -/
def Heap.plenty {α : Type} (v : α) : Heap α := { malloc := fun _ => true, fresh := fun _ _ => v }

/-! # Properties -/

theorem tab_length {α : Type} (r c : Nat) (f : Nat → Nat → α) : (tab r c f).length = r := by
  simp [tab]

theorem tab_getElem? {α : Type} (r c : Nat) (f : Nat → Nat → α) (i : Nat) (hi : i < r) :
    (tab r c f)[i]? = some ((List.range c).map (f i)) := by
  simp [tab, List.getElem?_map, List.getElem?_range hi]

theorem tab_congr {α : Type} (r c : Nat) (f g : Nat → Nat → α)
    (h : ∀ i, i < r → ∀ j, j < c → f i j = g i j) : tab r c f = tab r c g := by
  unfold tab
  apply List.map_congr_left
  intro i hi
  apply List.map_congr_left
  intro j hj
  exact h i (List.mem_range.mp hi) j (List.mem_range.mp hj)

theorem get2_tab {α : Type} (r c : Nat) (f : Nat → Nat → α) (i j : Nat)
    (hi : i < r) (hj : j < c) : get2 (tab r c f) i j = .ok (f i j) := by
  unfold get2
  rw [tab_getElem? r c f i hi]
  simp [List.getElem?_map, List.getElem?_range hj]
  rfl

theorem row_set {α : Type} (c : Nat) (g : Nat → α) (j : Nat) (v : α) :
    ((List.range c).map g).set j v = (List.range c).map (fun j' => if j' = j then v else g j') := by
  apply List.ext_getElem?
  intro j'
  rw [List.getElem?_set]
  by_cases hj' : j' < c
  · by_cases e : j = j'
    · subst e
      simp [List.getElem?_map, List.getElem?_range hj', hj']
    · have e' : ¬ j' = j := fun h => e h.symm
      simp [List.getElem?_map, List.getElem?_range hj', e, e']
  · have h1 : (List.range c)[j']? = none := by simp; omega
    by_cases e : j = j'
    · subst e
      simp [List.getElem?_map, h1, hj']
    · simp [List.getElem?_map, h1, e]

theorem set2_tab {α : Type} (r c : Nat) (f : Nat → Nat → α) (i j : Nat) (v : α)
    (hi : i < r) (hj : j < c) : set2 (tab r c f) i j v = .ok (tab r c (upd f i j v)) := by
  unfold set2
  rw [tab_getElem? r c f i hi]
  simp only [List.length_map, List.length_range, hj, if_true]
  congr 1
  rw [row_set]
  apply List.ext_getElem?
  intro i'
  rw [List.getElem?_set]
  by_cases hi' : i' < r
  · rw [tab_getElem? r c _ i' hi', tab_getElem? r c _ i' hi']
    by_cases e : i = i'
    · subst e
      simp [tab_length, hi', upd]
    · have e' : ¬ i' = i := fun h => e h.symm
      simp [e, e', upd]
  · have h1 : ∀ g : Nat → Nat → α, (tab r c g)[i']? = none := by
      intro g
      simp [tab_length]; omega
    by_cases e : i = i'
    · subst e
      simp [h1, tab_length, hi']
    · simp [h1, e]

/-- A loop `for (k = 0; k < n; k++)` whose body takes the state `st k` to
`st (k+1)` without a fault ends in `st n`. -/
theorem foldlM_range_ok {σ : Type} (step : σ → Nat → Except Fault σ) (st : Nat → σ) (n : Nat)
    (hstep : ∀ k, k < n → step (st k) k = .ok (st (k + 1))) :
    (List.range n).foldlM step (st 0) = .ok (st n) := by
  induction n with
  | zero => rfl
  | succ n ih =>
    rw [List.range_succ, List.foldlM_append, ih (fun k hk => hstep k (by omega))]
    simp only [bind, Except.bind, List.foldlM_cons, List.foldlM_nil]
    rw [hstep n (by omega)]
    rfl

theorem dotAcc_succ {α : Type} [Zero α] [Add α] [Mul α] (a b : Matrix α) (i j : Nat) (s : α)
    (n : Nat) : dotAcc a b i j s (n + 1) = dotAcc a b i j s n + a.elem i n * b.elem n j := by
  simp [dotAcc, List.range_succ, List.foldl_append]

theorem shape_data {α : Type} [Zero α] (m : Matrix α) (r c : Nat) (h : IsShape m r c) :
    m.data = tab r c m.elem := by
  obtain ⟨_, _, hlen, hrow⟩ := h
  apply List.ext_getElem?
  intro i
  by_cases hi : i < r
  · rw [tab_getElem? r c _ i hi]
    have hi2 : i < m.data.length := by omega
    rw [List.getElem?_eq_getElem hi2]
    congr 1
    have hr : (m.data[i]).length = c := hrow _ (List.getElem_mem _)
    apply List.ext_getElem?
    intro j
    by_cases hj : j < c
    · have hj2 : j < (m.data[i]).length := by omega
      simp [List.getElem?_map, List.getElem?_range hj, Matrix.elem, List.getD_eq_getElem?_getD,
        List.getElem?_eq_getElem hi2, List.getElem?_eq_getElem hj2]
    · have h1 : (List.range c)[j]? = none := by simp; omega
      have h2 : (m.data[i])[j]? = none := by simp; omega
      simp [List.getElem?_map, h1, h2]
  · have h1 : (tab r c m.elem)[i]? = none := by simp [tab_length]; omega
    have h2 : m.data[i]? = none := by simp; omega
    rw [h1, h2]

theorem ok_bind {σ τ : Type} (x : σ) (f : σ → Except Fault τ) :
    ((Except.ok x : Except Fault σ) >>= f) = f x := rfl

theorem upd_upd {α : Type} (f : Nat → Nat → α) (i j : Nat) (v w : α) :
    upd (upd f i j v) i j w = upd f i j w := by
  funext i' j'
  simp only [upd]
  split_ifs <;> rfl

theorem upd_self {α : Type} (f : Nat → Nat → α) (i j : Nat) : upd f i j (f i j) = f := by
  funext i' j'
  simp only [upd]
  split_ifs with h
  · rw [h.1, h.2]
  · rfl

theorem get2_shape {α : Type} [Zero α] (m : Matrix α) (r c : Nat) (h : IsShape m r c)
    (i j : Nat) (hi : i < r) (hj : j < c) : get2 m.data i j = .ok (m.elem i j) := by
  rw [shape_data m r c h]
  rw [get2_tab r c _ i j hi hj]

/-- The loop over `k`: cell `(i, j)` of the result accumulates the products. -/
theorem k_loop {α : Type} [Zero α] [Add α] [Mul α] (a b : Matrix α) (m n p R C : Nat)
    (ha : IsShape a m n) (hb : IsShape b n p) (f : Nat → Nat → α) (i j : Nat)
    (hi : i < m) (hj : j < p) (hR : m ≤ R) (hC : p ≤ C) :
    (List.range n).foldlM
        (fun (d : List (List α)) (k : Nat) => do
          let x ← get2 a.data i k
          let y ← get2 b.data k j
          let s ← get2 d i j
          set2 d i j (s + x * y))
        (tab R C f)
      = .ok (tab R C (upd f i j (dotAcc a b i j (f i j) n))) := by
  have h0 : tab R C f = tab R C (upd f i j (dotAcc a b i j (f i j) 0)) := by
    have : dotAcc a b i j (f i j) 0 = f i j := rfl
    rw [this, upd_self]
  rw [h0]
  apply foldlM_range_ok _ (fun k => tab R C (upd f i j (dotAcc a b i j (f i j) k)))
  intro k hk
  beta_reduce
  rw [get2_shape a m n ha i k hi hk, ok_bind, get2_shape b n p hb k j hk hj, ok_bind,
    get2_tab R C _ i j (by omega) (by omega), ok_bind,
    set2_tab R C _ i j _ (by omega) (by omega), upd_upd, dotAcc_succ]
  simp [upd]

/-- The loop over `j`: the cells `(i, 0..p-1)` of row `i` become dot products. -/
theorem j_loop {α : Type} [Zero α] [Add α] [Mul α] (a b : Matrix α) (m n p R C : Nat)
    (ha : IsShape a m n) (hb : IsShape b n p) (f : Nat → Nat → α) (i : Nat)
    (hi : i < m) (hR : m ≤ R) (hC : p ≤ C) :
    (List.range p).foldlM
        (fun (d : List (List α)) (j : Nat) => do
          let d ← set2 d i j 0
          (List.range n).foldlM
            (fun (d : List (List α)) (k : Nat) => do
              let x ← get2 a.data i k
              let y ← get2 b.data k j
              let s ← get2 d i j
              set2 d i j (s + x * y))
            d)
        (tab R C f)
      = .ok (tab R C (fun i' j' =>
          if i' = i ∧ j' < p then dotProduct a b i j' n else f i' j')) := by
  have key : ∀ q, q ≤ p →
      (List.range q).foldlM
        (fun (d : List (List α)) (j : Nat) => do
          let d ← set2 d i j 0
          (List.range n).foldlM
            (fun (d : List (List α)) (k : Nat) => do
              let x ← get2 a.data i k
              let y ← get2 b.data k j
              let s ← get2 d i j
              set2 d i j (s + x * y))
            d)
        (tab R C f)
      = .ok (tab R C (fun i' j' =>
          if i' = i ∧ j' < q then dotProduct a b i j' n else f i' j')) := by
    intro q hq
    have h0 : tab R C f
        = tab R C (fun i' j' => if i' = i ∧ j' < 0 then dotProduct a b i j' n else f i' j') := by
      simp
    rw [h0]
    apply foldlM_range_ok _
      (fun q => tab R C (fun i' j' => if i' = i ∧ j' < q then dotProduct a b i j' n else f i' j'))
    intro j hj
    beta_reduce
    rw [set2_tab R C _ i j _ (by omega) (by omega), ok_bind,
      k_loop a b m n p R C ha hb _ i j hi (by omega) hR hC, upd_upd]
    congr 2
    funext i' j'
    simp only [upd, dotProduct]
    by_cases h1 : i' = i
    · by_cases h2 : j' = j
      · subst h1; subst h2; simp
      · by_cases h3 : j' < j
        · have : j' < j + 1 := by omega
          simp [h1, h2, h3, this]
        · have : ¬ j' < j + 1 := by omega
          simp [h1, h2, h3, this]
    · simp [h1]
  exact key p le_rfl

/-- The loop over `i`: the cells `(0..m-1, 0..p-1)` become dot products and
every other cell of the storage keeps its value. -/
theorem i_loop {α : Type} [Zero α] [Add α] [Mul α] (a b : Matrix α) (m n p R C : Nat)
    (ha : IsShape a m n) (hb : IsShape b n p) (f : Nat → Nat → α)
    (hR : m ≤ R) (hC : p ≤ C) :
    (List.range m).foldlM
        (fun (d : List (List α)) (i : Nat) =>
          (List.range p).foldlM
            (fun (d : List (List α)) (j : Nat) => do
              let d ← set2 d i j 0
              (List.range n).foldlM
                (fun (d : List (List α)) (k : Nat) => do
                  let x ← get2 a.data i k
                  let y ← get2 b.data k j
                  let s ← get2 d i j
                  set2 d i j (s + x * y))
                d)
            d)
        (tab R C f)
      = .ok (tab R C (fun i' j' =>
          if i' < m ∧ j' < p then dotProduct a b i' j' n else f i' j')) := by
  have key : ∀ q, q ≤ m →
      (List.range q).foldlM
        (fun (d : List (List α)) (i : Nat) =>
          (List.range p).foldlM
            (fun (d : List (List α)) (j : Nat) => do
              let d ← set2 d i j 0
              (List.range n).foldlM
                (fun (d : List (List α)) (k : Nat) => do
                  let x ← get2 a.data i k
                  let y ← get2 b.data k j
                  let s ← get2 d i j
                  set2 d i j (s + x * y))
                d)
            d)
        (tab R C f)
      = .ok (tab R C (fun i' j' =>
          if i' < q ∧ j' < p then dotProduct a b i' j' n else f i' j')) := by
    intro q hq
    have h0 : tab R C f
        = tab R C (fun i' j' => if i' < 0 ∧ j' < p then dotProduct a b i' j' n else f i' j') := by
      simp
    rw [h0]
    apply foldlM_range_ok _
      (fun q => tab R C (fun i' j' => if i' < q ∧ j' < p then dotProduct a b i' j' n else f i' j'))
    intro i hi
    beta_reduce
    rw [j_loop a b m n p R C ha hb _ i (by omega) hR hC]
    congr 2
    funext i' j'
    by_cases h1 : i' = i
    · subst h1
      by_cases h2 : j' < p
      · simp [h2]
      · simp [h2]
    · by_cases h3 : i' < i
      · have : i' < i + 1 := by omega
        simp [h1, h3, this]
      · have : ¬ i' < i + 1 := by omega
        simp [h1, h3, this]
  exact key m le_rfl

theorem tab_succ {α : Type} (r c : Nat) (f : Nat → Nat → α) :
    tab (r + 1) c f = tab r c f ++ [(List.range c).map (f r)] := by
  simp [tab, List.range_succ]

theorem plot_create_matrix_ok {α : Type} (h : Heap α) (hs : h.Succeeds) (r c : Nat) :
    Plot.create_matrix h (r : Int) (c : Int) = .ok ⟨tab r c h.fresh, r, c⟩ := by
  have hloop : (List.range r).foldlM
      (fun (d : List (List α)) (i : Nat) =>
        if h.malloc (request (c : Int) sizeof_double) = false then
          (throw Fault.alloc_cols : Except Fault (List (List α)))
        else
          pure (d ++ [(List.range (c : Int).toNat).map (h.fresh i)]))
      [] = .ok (tab r c h.fresh) := by
    have h0 : ([] : List (List α)) = tab 0 c h.fresh := rfl
    rw [h0]
    apply foldlM_range_ok _ (fun q => tab q c h.fresh)
    intro k _
    beta_reduce
    rw [hs _, tab_succ]
    rfl
  unfold Plot.create_matrix
  rw [Int.toNat_ofNat r, hloop, hs _]
  rfl

/-- The result of `multiply` on an `m × n` and an `n × p` matrix, in closed form. -/
theorem plot_multiply_eq {α : Type} [Zero α] [Add α] [Mul α] (h : Heap α) (hs : h.Succeeds)
    (a b : Matrix α) (m n p : Nat) (ha : IsShape a m n) (hb : IsShape b n p) :
    Plot.multiply h a b = .ok ⟨tab m p (fun i j => dotProduct a b i j n), m, p⟩ := by
  have hl := i_loop a b m n p m p ha hb h.fresh le_rfl le_rfl
  have hc := plot_create_matrix_ok h hs m p
  have ht : tab m p (fun i' j' => if i' < m ∧ j' < p then dotProduct a b i' j' n
      else h.fresh i' j') = tab m p (fun i j => dotProduct a b i j n) := by
    apply tab_congr
    intro i hi j hj
    simp [hi, hj]
  rw [ht] at hl
  unfold Plot.multiply
  obtain ⟨ha1, ha2, -, -⟩ := ha
  obtain ⟨hb1, hb2, -, -⟩ := hb
  rw [ha1, ha2, hb1, hb2, hc]
  simp only [Int.toNat_ofNat, ok_bind]
  rw [hl, if_neg (by simp)]
  rfl

theorem bind_ne_error {σ τ : Type} (e : Fault) (x : Except Fault σ) (f : σ → Except Fault τ)
    (hx : x ≠ .error e) (hf : ∀ v, f v ≠ .error e) : (x >>= f) ≠ .error e := by
  cases x with
  | error g =>
    intro h
    apply hx
    simpa [bind, Except.bind] using h
  | ok v => exact hf v

theorem foldlM_ne_error {σ β : Type} (e : Fault) (step : σ → β → Except Fault σ)
    (hstep : ∀ s x, step s x ≠ .error e) (l : List β) (s : σ) :
    l.foldlM step s ≠ .error e := by
  induction l generalizing s with
  | nil => simp [List.foldlM_nil, pure, Except.pure]
  | cons x l ih =>
    rw [List.foldlM_cons]
    exact bind_ne_error e _ _ (hstep s x) (fun v => ih v)

theorem get2_ne_mismatch {α : Type} (d : List (List α)) (i j : Nat) :
    get2 d i j ≠ .error Fault.mismatch := by
  unfold get2
  split
  · simp [throw, throwThe, MonadExceptOf.throw]
  · split
    · simp [throw, throwThe, MonadExceptOf.throw]
    · simp [pure, Except.pure]

theorem set2_ne_mismatch {α : Type} (d : List (List α)) (i j : Nat) (v : α) :
    set2 d i j v ≠ .error Fault.mismatch := by
  unfold set2
  split
  · simp [throw, throwThe, MonadExceptOf.throw]
  · split
    · simp [pure, Except.pure]
    · simp [throw, throwThe, MonadExceptOf.throw]

/-- The three loops of `multiply` never end with the mismatch fault. -/
theorem loops_ne_mismatch {α : Type} [Zero α] [Add α] [Mul α] (a b : Matrix α)
    (c : List (List α)) :
    (List.range a.rows.toNat).foldlM
      (fun (d : List (List α)) (i : Nat) =>
        (List.range b.cols.toNat).foldlM
          (fun (d : List (List α)) (j : Nat) => do
            let d ← set2 d i j 0
            (List.range a.cols.toNat).foldlM
              (fun (d : List (List α)) (k : Nat) => do
                let x ← get2 a.data i k
                let y ← get2 b.data k j
                let s ← get2 d i j
                set2 d i j (s + x * y))
              d)
          d)
      c ≠ .error Fault.mismatch := by
  apply foldlM_ne_error
  intro d i
  apply foldlM_ne_error
  intro d j
  apply bind_ne_error _ _ _ (set2_ne_mismatch _ _ _ _)
  intro d
  apply foldlM_ne_error
  intro d k
  apply bind_ne_error _ _ _ (get2_ne_mismatch _ _ _)
  intro x
  apply bind_ne_error _ _ _ (get2_ne_mismatch _ _ _)
  intro y
  apply bind_ne_error _ _ _ (get2_ne_mismatch _ _ _)
  intro s
  exact set2_ne_mismatch _ _ _ _

theorem plot_create_matrix_unfold {α : Type} (h : Heap α) (r c : Int) :
    Plot.create_matrix h r c =
      if h.malloc (request r sizeof_ptr) = false then .error Fault.alloc_rows
      else
        (List.range r.toNat).foldlM
          (fun (d : List (List α)) (i : Nat) =>
            if h.malloc (request c sizeof_double) = false then
              (.error Fault.alloc_cols : Except Fault (List (List α)))
            else
              .ok (d ++ [(List.range c.toNat).map (h.fresh i)]))
          [] >>= fun data => .ok { data := data, rows := r, cols := c } := by
  unfold Plot.create_matrix
  by_cases hm : h.malloc (request r sizeof_ptr) = false
  · simp only [hm, if_true]
    rfl
  · simp only [hm, if_false]
    rfl

theorem fixed_create_matrix_unfold {α : Type} (h : Heap α) :
    Fixed.create_matrix h = Plot.create_matrix h Fixed.ROWS Fixed.COLS := rfl

theorem plot_create_matrix_ne_mismatch {α : Type} (h : Heap α) (r c : Int) :
    Plot.create_matrix (α := α) h r c ≠ .error Fault.mismatch := by
  rw [plot_create_matrix_unfold]
  split
  · simp
  · apply bind_ne_error
    · apply foldlM_ne_error
      intro d i
      split
      · simp
      · simp
    · intro d
      simp

theorem fixed_create_matrix_ne_mismatch {α : Type} (h : Heap α) :
    Fixed.create_matrix (α := α) h ≠ .error Fault.mismatch := by
  rw [fixed_create_matrix_unfold]
  exact plot_create_matrix_ne_mismatch h _ _

theorem plot_multiply_mismatch_iff {α : Type} [Zero α] [Add α] [Mul α] (h : Heap α)
    (a b : Matrix α) : Plot.multiply h a b = .error Fault.mismatch ↔ a.cols ≠ b.rows := by
  constructor
  · intro hm hab
    revert hm
    unfold Plot.multiply
    rw [if_neg (by simpa using hab)]
    apply bind_ne_error
    · simp [pure, Except.pure]
    · intro _
      apply bind_ne_error _ _ _ (plot_create_matrix_ne_mismatch h _ _)
      intro c
      apply bind_ne_error _ _ _ (loops_ne_mismatch a b c.data)
      intro d
      simp [pure, Except.pure]
  · intro hab
    unfold Plot.multiply
    rw [if_pos hab]
    rfl

theorem fixed_multiply_mismatch_iff {α : Type} [Zero α] [Add α] [Mul α] (h : Heap α)
    (a b : Matrix α) : Fixed.multiply h a b = .error Fault.mismatch ↔ a.cols ≠ b.rows := by
  constructor
  · intro hm hab
    revert hm
    unfold Fixed.multiply
    rw [if_neg (by simpa using hab)]
    apply bind_ne_error
    · simp [pure, Except.pure]
    · intro _
      apply bind_ne_error _ _ _ (fixed_create_matrix_ne_mismatch h)
      intro c
      apply bind_ne_error _ _ _ (loops_ne_mismatch a b c.data)
      intro d
      simp [pure, Except.pure]
  · intro hab
    unfold Fixed.multiply
    rw [if_pos hab]
    rfl

theorem plot_multiply_unfold {α : Type} [Zero α] [Add α] [Mul α] (h : Heap α)
    (a b : Matrix α) :
    Plot.multiply h a b =
      if a.cols ≠ b.rows then .error Fault.mismatch
      else
        Plot.create_matrix h a.rows b.cols >>= fun c =>
          (List.range a.rows.toNat).foldlM
            (fun (d : List (List α)) (i : Nat) =>
              (List.range b.cols.toNat).foldlM
                (fun (d : List (List α)) (j : Nat) => do
                  let d ← set2 d i j 0
                  (List.range a.cols.toNat).foldlM
                    (fun (d : List (List α)) (k : Nat) => do
                      let x ← get2 a.data i k
                      let y ← get2 b.data k j
                      let s ← get2 d i j
                      set2 d i j (s + x * y))
                    d)
                d)
            c.data >>= fun data => .ok { c with data := data } := by
  unfold Plot.multiply
  by_cases hm : a.cols ≠ b.rows
  · rw [if_pos hm, if_pos hm]
    rfl
  · rw [if_neg hm, if_neg hm]
    rfl

theorem fixed_multiply_unfold {α : Type} [Zero α] [Add α] [Mul α] (h : Heap α)
    (a b : Matrix α) :
    Fixed.multiply h a b =
      if a.cols ≠ b.rows then .error Fault.mismatch
      else
        Fixed.create_matrix h >>= fun c =>
          (List.range a.rows.toNat).foldlM
            (fun (d : List (List α)) (i : Nat) =>
              (List.range b.cols.toNat).foldlM
                (fun (d : List (List α)) (j : Nat) => do
                  let d ← set2 d i j 0
                  (List.range a.cols.toNat).foldlM
                    (fun (d : List (List α)) (k : Nat) => do
                      let x ← get2 a.data i k
                      let y ← get2 b.data k j
                      let s ← get2 d i j
                      set2 d i j (s + x * y))
                    d)
                d)
            c.data >>= fun data => .ok { c with data := data } := by
  unfold Fixed.multiply
  by_cases hm : a.cols ≠ b.rows
  · rw [if_pos hm, if_pos hm]
    rfl
  · rw [if_neg hm, if_neg hm]
    rfl

/-- The three results `create_matrix` can have. -/
theorem plot_create_matrix_cases {α : Type} (h : Heap α) (r c : Nat) :
    Plot.create_matrix h (r : Int) (c : Int) = .ok ⟨tab r c h.fresh, r, c⟩
      ∨ Plot.create_matrix h (r : Int) (c : Int) = .error Fault.alloc_rows
      ∨ Plot.create_matrix h (r : Int) (c : Int) = .error Fault.alloc_cols := by
  rw [plot_create_matrix_unfold]
  by_cases h1 : h.malloc (request (r : Int) sizeof_ptr) = false
  · right; left
    rw [if_pos h1]
  · rw [if_neg h1, Int.toNat_ofNat, Int.toNat_ofNat]
    by_cases h2 : h.malloc (request (c : Int) sizeof_double) = false
    · simp only [h2, if_true]
      cases r with
      | zero => left; rfl
      | succ r =>
        right; right
        rw [List.range_succ_eq_map, List.foldlM_cons]
        rfl
    · left
      have hloop : (List.range r).foldlM
          (fun (d : List (List α)) (i : Nat) =>
            if true = false then (.error Fault.alloc_cols : Except Fault (List (List α)))
            else .ok (d ++ [(List.range c).map (h.fresh i)]))
          [] = .ok (tab r c h.fresh) := by
        apply foldlM_range_ok _ (fun q => tab q c h.fresh) r
        intro k _
        beta_reduce
        rw [tab_succ]
        rfl
      simp only [Bool.not_eq_false] at h2
      rw [h2, hloop]
      rfl

/-- On well-shaped operands `multiply` returns the product, unless the
allocation of the result fails. -/
theorem plot_multiply_cases {α : Type} [Zero α] [Add α] [Mul α] (h : Heap α)
    (a b : Matrix α) (m n p : Nat) (ha : IsShape a m n) (hb : IsShape b n p) :
    Plot.multiply h a b = .ok ⟨tab m p (fun i j => dotProduct a b i j n), m, p⟩
      ∨ Plot.multiply h a b = .error Fault.alloc_rows
      ∨ Plot.multiply h a b = .error Fault.alloc_cols := by
  have hl := i_loop a b m n p m p ha hb h.fresh le_rfl le_rfl
  have ht : tab m p (fun i' j' => if i' < m ∧ j' < p then dotProduct a b i' j' n
      else h.fresh i' j') = tab m p (fun i j => dotProduct a b i j n) := by
    apply tab_congr
    intro i hi j hj
    simp [hi, hj]
  rw [ht] at hl
  rw [plot_multiply_unfold]
  obtain ⟨ha1, ha2, -, -⟩ := ha
  obtain ⟨hb1, hb2, -, -⟩ := hb
  rw [ha1, ha2, hb1, hb2, if_neg (by simp)]
  rcases plot_create_matrix_cases h m p with hc | hc | hc
  · left
    rw [hc, ok_bind]
    simp only [Int.toNat_ofNat]
    rw [hl]
    rfl
  · right; left
    rw [hc]; rfl
  · right; right
    rw [hc]; rfl

/-- In the fixed-size variant the product lands in the upper left corner of a
`100 × 100` result whose other cells keep what the fresh storage held. -/
theorem fixed_multiply_eq {α : Type} [Zero α] [Add α] [Mul α] (h : Heap α) (hs : h.Succeeds)
    (a b : Matrix α) (m n p : Nat) (ha : IsShape a m n) (hb : IsShape b n p)
    (hm : m ≤ 100) (hp : p ≤ 100) :
    Fixed.multiply h a b =
      .ok ⟨tab 100 100 (fun i j => if i < m ∧ j < p then dotProduct a b i j n else h.fresh i j),
        Fixed.ROWS, Fixed.COLS⟩ := by
  have hl := i_loop a b m n p 100 100 ha hb h.fresh hm hp
  have hc : Fixed.create_matrix h = .ok ⟨tab 100 100 h.fresh, Fixed.ROWS, Fixed.COLS⟩ := by
    rw [fixed_create_matrix_unfold]
    exact plot_create_matrix_ok h hs 100 100
  rw [fixed_multiply_unfold]
  obtain ⟨ha1, ha2, -, -⟩ := ha
  obtain ⟨hb1, hb2, -, -⟩ := hb
  rw [ha1, ha2, hb1, hb2, if_neg (by simp), hc, ok_bind]
  simp only [Int.toNat_ofNat]
  rw [hl]
  rfl

theorem isShape_tab {α : Type} (r c : Nat) (f : Nat → Nat → α) :
    IsShape (⟨tab r c f, r, c⟩ : Matrix α) r c := by
  refine ⟨rfl, rfl, tab_length r c f, ?_⟩
  intro row hrow
  simp only [tab, List.mem_map, List.mem_range] at hrow
  obtain ⟨i, _, rfl⟩ := hrow
  simp

theorem elem_tab {α : Type} [Zero α] (r c : Nat) (f : Nat → Nat → α) (R C : Int) (i j : Nat)
    (hi : i < r) (hj : j < c) : (⟨tab r c f, R, C⟩ : Matrix α).elem i j = f i j := by
  simp [Matrix.elem, List.getD_eq_getElem?_getD, tab_getElem? r c f i hi,
    List.getElem?_map, List.getElem?_range hj]

theorem wellFormed_isShape {α : Type} (m : Matrix α) (hm : WellFormed m) :
    IsShape m m.rows.toNat m.cols.toNat := by
  obtain ⟨h1, h2, h3, h4⟩ := hm
  exact ⟨(Int.toNat_of_nonneg h1).symm, (Int.toNat_of_nonneg h2).symm, h3, h4⟩

theorem isShape_wellFormed {α : Type} (m : Matrix α) (r c : Nat) (hm : IsShape m r c) :
    WellFormed m := by
  obtain ⟨h1, h2, h3, h4⟩ := hm
  refine ⟨by omega, by omega, by rw [h1]; simpa using h3, ?_⟩
  intro row hrow
  rw [h2]
  simpa using h4 row hrow

/-- A read `d[i][j]` is a fault exactly when the index is outside the storage. -/
theorem get2_out_of_bounds_iff {α : Type} (d : List (List α)) (i j : Nat) :
    get2 d i j = .error Fault.out_of_bounds ↔ ¬ (i < d.length ∧ j < (d.getD i []).length) := by
  unfold get2
  by_cases hi : i < d.length
  · rw [List.getElem?_eq_getElem hi]
    by_cases hj : j < (d[i]).length
    · simp [List.getElem?_eq_getElem hj, hi, hj, List.getD_eq_getElem?_getD, pure, Except.pure]
    · have : (d[i])[j]? = none := by simp; omega
      simp [this, hi, hj, List.getD_eq_getElem?_getD, throw, throwThe, MonadExceptOf.throw]
  · have : d[i]? = none := by simp; omega
    simp [this, hi, throw, throwThe, MonadExceptOf.throw]

/-- A write `d[i][j] = v` is a fault exactly when the index is outside the storage. -/
theorem set2_out_of_bounds_iff {α : Type} (d : List (List α)) (i j : Nat) (v : α) :
    set2 d i j v = .error Fault.out_of_bounds ↔ ¬ (i < d.length ∧ j < (d.getD i []).length) := by
  unfold set2
  by_cases hi : i < d.length
  · rw [List.getElem?_eq_getElem hi]
    by_cases hj : j < (d[i]).length
    · simp [hi, hj, List.getD_eq_getElem?_getD, pure, Except.pure]
    · simp [hi, hj, List.getD_eq_getElem?_getD, throw, throwThe, MonadExceptOf.throw]
  · have : d[i]? = none := by simp; omega
    simp [this, hi, throw, throwThe, MonadExceptOf.throw]

/-! ## The claims about `multiply` -/

/-- Claim C1: in the parametrized variant, for an `m × n` matrix `a` and an
`n × p` matrix `b`, `multiply(a, b)` returns a matrix `c` whose cell `(i, j)`,
for `i < m` and `j < p`, is the sum over `k = 0..n-1` of `a[i][k] * b[k][j]`
added from left to right in increasing `k` starting from `0` (allocation of
the result succeeding).  It holds for every arithmetic `0`, `+`, `*`. -/
theorem multiply_cell_eq_sum {α : Type} [Zero α] [Add α] [Mul α] (h : Heap α)
    (hs : h.Succeeds) (a b : Matrix α) (m n p : Nat) (ha : IsShape a m n) (hb : IsShape b n p) :
    ∃ c, Plot.multiply h a b = .ok c ∧
      ∀ i j, i < m → j < p →
        get2 c.data i j
          = .ok ((List.range n).foldl (fun acc k => acc + a.elem i k * b.elem k j) 0) := by
  refine ⟨_, plot_multiply_eq h hs a b m n p ha hb, ?_⟩
  intro i j hi hj
  exact get2_tab m p _ i j hi hj

/-- Claim C1, the scenario of the specification: `[[2,3]]` times `[[4],[5]]`
is `[[23]]`. -/
theorem multiply_cell_eq_sum_witness :
    Plot.multiply (Heap.plenty (0 : Int)) ⟨[[2, 3]], 1, 2⟩ ⟨[[4], [5]], 2, 1⟩ = .ok ⟨[[23]], 1, 1⟩
    ∧ ∃ c, Plot.multiply (Heap.plenty (0 : Int)) ⟨[[2, 3]], 1, 2⟩ ⟨[[4], [5]], 2, 1⟩ = .ok c ∧
      ∀ i j, i < 1 → j < 1 →
        get2 c.data i j
          = .ok ((List.range 2).foldl
              (fun acc k => acc + (⟨[[2, 3]], 1, 2⟩ : Matrix Int).elem i k
                * (⟨[[4], [5]], 2, 1⟩ : Matrix Int).elem k j) 0) :=
  ⟨rfl, multiply_cell_eq_sum (Heap.plenty (0 : Int)) (fun _ => rfl)
    ⟨[[2, 3]], 1, 2⟩ ⟨[[4], [5]], 2, 1⟩ 1 2 1 (by decide) (by decide)⟩

/-- Claim C2: in the parametrized variant, for an `m × n` matrix `a` and an
`n × p` matrix `b` (in particular for all `m, n, p ≥ 1`), `multiply(a, b)`
returns a matrix with `rows = m` and `cols = p` whose storage has exactly `m`
rows of exactly `p` elements each (allocation of the result succeeding). -/
theorem multiply_shape {α : Type} [Zero α] [Add α] [Mul α] (h : Heap α)
    (hs : h.Succeeds) (a b : Matrix α) (m n p : Nat) (ha : IsShape a m n) (hb : IsShape b n p) :
    ∃ c, Plot.multiply h a b = .ok c ∧ c.rows = (m : Int) ∧ c.cols = (p : Int) ∧
      c.data.length = m ∧ ∀ row ∈ c.data, row.length = p :=
  ⟨_, plot_multiply_eq h hs a b m n p ha hb, isShape_tab m p _⟩

/-- Claim C2 at a `2 × 3` and a `3 × 1` matrix. -/
theorem multiply_shape_witness :
    ∃ c, Plot.multiply (Heap.plenty (0 : Int)) ⟨[[1, 2, 3], [4, 5, 6]], 2, 3⟩
        ⟨[[1], [0], [2]], 3, 1⟩ = .ok c ∧
      c.rows = ((2 : Nat) : Int) ∧ c.cols = ((1 : Nat) : Int) ∧
      c.data.length = 2 ∧ ∀ row ∈ c.data, row.length = 1 :=
  multiply_shape (Heap.plenty (0 : Int)) (fun _ => rfl)
    ⟨[[1, 2, 3], [4, 5, 6]], 2, 3⟩ ⟨[[1], [0], [2]], 3, 1⟩ 2 3 1 (by decide) (by decide)

/-- Claim C10: in the parametrized variant, for well-formed `a` and `b` with
`a.cols == b.rows` (dimensions `≥ 0`), no read `a[i][k]`, `b[k][j]` and no
write `c[i][j]` of the loops of `multiply` is out of range, whatever the heap
does; and when the allocation of the result succeeds `multiply` completes
with a result, itself well formed. -/
theorem multiply_in_bounds {α : Type} [Zero α] [Add α] [Mul α] (h : Heap α)
    (a b : Matrix α) (ha : WellFormed a) (hb : WellFormed b) (hab : a.cols = b.rows) :
    Plot.multiply h a b ≠ .error Fault.out_of_bounds ∧
      (h.Succeeds → ∃ c, Plot.multiply h a b = .ok c ∧ WellFormed c) := by
  have hA := wellFormed_isShape a ha
  have hB := wellFormed_isShape b hb
  rw [← hab] at hB
  constructor
  · rcases plot_multiply_cases h a b _ _ _ hA hB with hc | hc | hc <;> rw [hc] <;> simp
  · intro hs
    exact ⟨_, plot_multiply_eq h hs a b _ _ _ hA hB, isShape_wellFormed _ _ _ (isShape_tab _ _ _)⟩

/-- Claim C10 at a `2 × 3` and a `3 × 2` matrix on a heap whose fresh storage
reads `7`: the loops run `2 * 2 * 3` times, each with its reads `a[i][k]`,
`b[k][j]`, `c[i][j]` and its write `c[i][j]`, and the result is the product.
Also at a `1 × 0` and a `0 × 1` matrix, where the only access is the write
`c[0][0] = 0.0` over the `7` of the fresh storage. -/
theorem multiply_in_bounds_witness :
    (Plot.multiply (Heap.plenty (7 : Int)) ⟨[[1, 2, 3], [4, 5, 6]], 2, 3⟩
        ⟨[[1, 2], [3, 4], [5, 6]], 3, 2⟩ ≠ .error Fault.out_of_bounds ∧
      (∃ c, Plot.multiply (Heap.plenty (7 : Int)) ⟨[[1, 2, 3], [4, 5, 6]], 2, 3⟩
          ⟨[[1, 2], [3, 4], [5, 6]], 3, 2⟩ = .ok c ∧ WellFormed c) ∧
      Plot.multiply (Heap.plenty (7 : Int)) ⟨[[1, 2, 3], [4, 5, 6]], 2, 3⟩
          ⟨[[1, 2], [3, 4], [5, 6]], 3, 2⟩ = .ok ⟨[[22, 28], [49, 64]], 2, 2⟩) ∧
    ((∃ c, Plot.multiply (Heap.plenty (7 : Int)) ⟨[[]], 1, 0⟩ ⟨[], 0, 1⟩ = .ok c ∧
        WellFormed c) ∧
      Plot.multiply (Heap.plenty (7 : Int)) ⟨[[]], 1, 0⟩ ⟨[], 0, 1⟩ = .ok ⟨[[0]], 1, 1⟩) :=
  ⟨⟨(multiply_in_bounds (Heap.plenty (7 : Int)) ⟨[[1, 2, 3], [4, 5, 6]], 2, 3⟩
        ⟨[[1, 2], [3, 4], [5, 6]], 3, 2⟩ (by decide) (by decide) rfl).1,
      (multiply_in_bounds (Heap.plenty (7 : Int)) ⟨[[1, 2, 3], [4, 5, 6]], 2, 3⟩
        ⟨[[1, 2], [3, 4], [5, 6]], 3, 2⟩ (by decide) (by decide) rfl).2 (fun _ => rfl),
      rfl⟩,
    ⟨(multiply_in_bounds (Heap.plenty (7 : Int)) ⟨[[]], 1, 0⟩ ⟨[], 0, 1⟩
        (by decide) (by decide) rfl).2 (fun _ => rfl),
      rfl⟩⟩

/-- Claim C4: in both variants `multiply` ends on the dimension-mismatch path
(the diagnostic on standard error, `exit(EXIT_FAILURE)`, no result matrix) if
and only if `a.cols ≠ b.rows`; every other fault and every result is a
different outcome. -/
theorem multiply_mismatch_path {α : Type} [Zero α] [Add α] [Mul α] (h : Heap α)
    (a b : Matrix α) :
    (Plot.multiply h a b = .error Fault.mismatch ↔ a.cols ≠ b.rows) ∧
    (Fixed.multiply h a b = .error Fault.mismatch ↔ a.cols ≠ b.rows) ∧
    Fault.mismatch.diagnostic = some "Matrix dimension mismatch for multiplication.\n" :=
  ⟨plot_multiply_mismatch_iff h a b, fixed_multiply_mismatch_iff h a b, rfl⟩

/-- Claim C4, the scenario of the specification: a `2 × 3` matrix times a
`4 × 5` matrix ends on the mismatch path in both variants (the storage plays
no part, the test comes first), and a `1 × 1` times a `1 × 1` does not. -/
theorem multiply_mismatch_path_witness :
    Plot.multiply (Heap.plenty (0 : Int)) ⟨[], 2, 3⟩ ⟨[], 4, 5⟩ = .error Fault.mismatch ∧
    Fixed.multiply (Heap.plenty (0 : Int)) ⟨[], 2, 3⟩ ⟨[], 4, 5⟩ = .error Fault.mismatch ∧
    Plot.multiply (Heap.plenty (0 : Int)) ⟨[[1]], 1, 1⟩ ⟨[[1]], 1, 1⟩ ≠ .error Fault.mismatch :=
  ⟨(multiply_mismatch_path (Heap.plenty (0 : Int)) ⟨[], 2, 3⟩ ⟨[], 4, 5⟩).1.mpr (by decide),
   (multiply_mismatch_path (Heap.plenty (0 : Int)) ⟨[], 2, 3⟩ ⟨[], 4, 5⟩).2.1.mpr (by decide),
   fun e => (multiply_mismatch_path (Heap.plenty (0 : Int)) ⟨[[1]], 1, 1⟩ ⟨[[1]], 1, 1⟩).1.mp e
     rfl⟩

/-- Claim C3 fails as stated: in the fixed-size variant the product of a
`2 × 3` and a `3 × 2` matrix is returned with `rows = 100` and `cols = 100`,
not `2` and `2`. -/
theorem fixed_result_shape_counterexample :
    (⟨[[1, 2, 3], [4, 5, 6]], 2, 3⟩ : Matrix Int).cols
        = (⟨[[1, 2], [3, 4], [5, 6]], 3, 2⟩ : Matrix Int).rows ∧
    ∃ c, Fixed.multiply (Heap.plenty (0 : Int)) ⟨[[1, 2, 3], [4, 5, 6]], 2, 3⟩
        ⟨[[1, 2], [3, 4], [5, 6]], 3, 2⟩ = .ok c ∧
      c.rows = 100 ∧ c.cols = 100 ∧
      c.rows ≠ (⟨[[1, 2, 3], [4, 5, 6]], 2, 3⟩ : Matrix Int).rows ∧
      c.cols ≠ (⟨[[1, 2], [3, 4], [5, 6]], 3, 2⟩ : Matrix Int).cols :=
  ⟨rfl, _, fixed_multiply_eq (Heap.plenty (0 : Int)) (fun _ => rfl) _ _ 2 3 2
    (by decide) (by decide) (by decide) (by decide), rfl, rfl, by decide, by decide⟩

/-- Claim C3 as amended: in the fixed-size variant, for an `m × n` matrix `a`
and an `n × p` matrix `b` with `m ≤ 100` and `p ≤ 100`, `multiply(a, b)`
returns a matrix with `rows = ROWS = 100` and `cols = COLS = 100`; these are
`a.rows` and `b.cols` exactly when `m = 100` and `p = 100`, the shape of every
matrix that `create_matrix()` makes. -/
theorem fixed_result_shape {α : Type} [Zero α] [Add α] [Mul α] (h : Heap α)
    (hs : h.Succeeds) (a b : Matrix α) (m n p : Nat) (ha : IsShape a m n) (hb : IsShape b n p)
    (hm : m ≤ 100) (hp : p ≤ 100) :
    ∃ c, Fixed.multiply h a b = .ok c ∧ c.rows = Fixed.ROWS ∧ c.cols = Fixed.COLS ∧
      (c.rows = a.rows ∧ c.cols = b.cols ↔ m = 100 ∧ p = 100) := by
  refine ⟨_, fixed_multiply_eq h hs a b m n p ha hb hm hp, rfl, rfl, ?_⟩
  obtain ⟨ha1, -, -, -⟩ := ha
  obtain ⟨-, hb2, -, -⟩ := hb
  simp only [ha1, hb2, Fixed.ROWS, Fixed.COLS]
  constructor
  · rintro ⟨h1, h2⟩
    exact ⟨by exact_mod_cast h1.symm, by exact_mod_cast h2.symm⟩
  · rintro ⟨rfl, rfl⟩
    exact ⟨rfl, rfl⟩

/-- Claim C3 as amended, at a `2 × 3` and a `3 × 2` matrix. -/
theorem fixed_result_shape_witness :
    ∃ c, Fixed.multiply (Heap.plenty (0 : Int)) ⟨[[1, 2, 3], [4, 5, 6]], 2, 3⟩
        ⟨[[1, 2], [3, 4], [5, 6]], 3, 2⟩ = .ok c ∧ c.rows = Fixed.ROWS ∧ c.cols = Fixed.COLS ∧
      (c.rows = (⟨[[1, 2, 3], [4, 5, 6]], 2, 3⟩ : Matrix Int).rows ∧
        c.cols = (⟨[[1, 2], [3, 4], [5, 6]], 3, 2⟩ : Matrix Int).cols ↔ 2 = 100 ∧ 2 = 100) :=
  fixed_result_shape (Heap.plenty (0 : Int)) (fun _ => rfl) _ _ 2 3 2
    (by decide) (by decide) (by decide) (by decide)

/-! ## Identity and zero matrices over `double` -/

theorem Dbl.fin_add (x y : ℚ) : Dbl.fin x + Dbl.fin y = Dbl.fin (x + y) := rfl

theorem Dbl.fin_mul (x y : ℚ) : Dbl.fin x * Dbl.fin y = Dbl.fin (x * y) := rfl

theorem Dbl.inf_mul_fin (s : Bool) (y : ℚ) :
    Dbl.inf s * Dbl.fin y = if y = 0 then Dbl.nan else Dbl.inf (xor s (decide (y < 0))) := rfl

theorem Dbl.fin_add_inf (x : ℚ) (t : Bool) : Dbl.fin x + Dbl.inf t = Dbl.inf t := rfl

theorem Dbl.zero_eq : (0 : Dbl) = Dbl.fin 0 := rfl

theorem Dbl.one_eq : (1 : Dbl) = Dbl.fin 1 := rfl

theorem Dbl.isFinite_iff (x : Dbl) : x.isFinite = true ↔ ∃ q, x = Dbl.fin q := by
  cases x <;> simp [Dbl.isFinite]

theorem elem_mem {α : Type} [Zero α] (A : Matrix α) (m n : Nat) (hA : IsShape A m n)
    (i j : Nat) (hi : i < m) (hj : j < n) : ∃ row ∈ A.data, A.elem i j ∈ row := by
  obtain ⟨-, -, hlen, hrow⟩ := hA
  have hi2 : i < A.data.length := by omega
  have hr : (A.data[i]).length = n := hrow _ (List.getElem_mem _)
  have hj2 : j < (A.data[i]).length := by omega
  refine ⟨A.data[i], List.getElem_mem _, ?_⟩
  have : A.elem i j = (A.data[i])[j] := by
    simp [Matrix.elem, List.getD_eq_getElem?_getD, List.getElem?_eq_getElem hi2,
      List.getElem?_eq_getElem hj2]
  rw [this]
  exact List.getElem_mem _

theorem elem_finite (A : Matrix Dbl) (m n : Nat) (hA : IsShape A m n) (hfin : AllFinite A)
    (i j : Nat) (hi : i < m) (hj : j < n) : ∃ q, A.elem i j = Dbl.fin q := by
  obtain ⟨row, hrow, hx⟩ := elem_mem A m n hA i j hi hj
  exact (Dbl.isFinite_iff _).mp (hfin row hrow _ hx)

theorem identity_elem {α : Type} [Zero α] [One α] (n i j : Nat) (hi : i < n) (hj : j < n) :
    (identity n : Matrix α).elem i j = if i = j then 1 else 0 :=
  elem_tab n n _ _ _ i j hi hj

theorem zeros_elem {α : Type} [Zero α] (r c i j : Nat) (hi : i < r) (hj : j < c) :
    (zeros r c : Matrix α).elem i j = 0 :=
  elem_tab r c _ _ _ i j hi hj

theorem isShape_identity {α : Type} [Zero α] [One α] (n : Nat) :
    IsShape (identity n : Matrix α) n n := isShape_tab n n _

theorem isShape_zeros {α : Type} [Zero α] (r c : Nat) : IsShape (zeros r c : Matrix α) r c :=
  isShape_tab r c _

theorem eq_of_shape {α : Type} [Zero α] (A : Matrix α) (m n : Nat) (hA : IsShape A m n)
    (f : Nat → Nat → α) (hf : ∀ i, i < m → ∀ j, j < n → f i j = A.elem i j) :
    (⟨tab m n f, m, n⟩ : Matrix α) = A := by
  have hd := shape_data A m n hA
  obtain ⟨h1, h2, -, -⟩ := hA
  cases A with
  | mk data rows cols =>
    simp only at h1 h2 hd
    subst h1 h2
    rw [hd]
    congr 1
    exact tab_congr m n _ _ hf

theorem dot_identity_right (A : Matrix Dbl) (m n : Nat) (hA : IsShape A m n)
    (hfin : AllFinite A) (i j : Nat) (hi : i < m) (hj : j < n) :
    dotProduct A (identity n) i j n = A.elem i j := by
  have key : ∀ q, q ≤ n →
      dotAcc A (identity n) i j 0 q = if j < q then A.elem i j else 0 := by
    intro q
    induction q with
    | zero => intro _; rfl
    | succ q ih =>
      intro hq
      rw [dotAcc_succ, ih (by omega), identity_elem n q j (by omega) hj]
      obtain ⟨x, hx⟩ := elem_finite A m n hA hfin i q hi (by omega)
      obtain ⟨y, hy⟩ := elem_finite A m n hA hfin i j hi hj
      by_cases e : q = j
      · subst e
        simp [hx, Dbl.zero_eq, Dbl.one_eq, Dbl.fin_add, Dbl.fin_mul]
      · by_cases l : j < q
        · have l2 : j < q + 1 := by omega
          simp [e, l, l2, hx, hy, Dbl.zero_eq, Dbl.fin_add, Dbl.fin_mul]
        · have l2 : ¬ j < q + 1 := by omega
          simp [e, l, l2, hx, Dbl.zero_eq, Dbl.fin_add, Dbl.fin_mul]
  have := key n le_rfl
  simpa [dotProduct, hj] using this

theorem dot_identity_left (A : Matrix Dbl) (m n : Nat) (hA : IsShape A m n)
    (hfin : AllFinite A) (i j : Nat) (hi : i < m) (hj : j < n) :
    dotProduct (identity m) A i j m = A.elem i j := by
  have key : ∀ q, q ≤ m →
      dotAcc (identity m) A i j 0 q = if i < q then A.elem i j else 0 := by
    intro q
    induction q with
    | zero => intro _; rfl
    | succ q ih =>
      intro hq
      rw [dotAcc_succ, ih (by omega), identity_elem m i q hi (by omega)]
      obtain ⟨x, hx⟩ := elem_finite A m n hA hfin q j (by omega) hj
      obtain ⟨y, hy⟩ := elem_finite A m n hA hfin i j hi hj
      by_cases e : i = q
      · subst e
        simp [hx, Dbl.zero_eq, Dbl.one_eq, Dbl.fin_add, Dbl.fin_mul]
      · by_cases l : i < q
        · have l2 : i < q + 1 := by omega
          simp [e, l, l2, hx, hy, Dbl.zero_eq, Dbl.fin_add, Dbl.fin_mul]
        · have l2 : ¬ i < q + 1 := by omega
          simp [e, l, l2, hx, Dbl.zero_eq, Dbl.fin_add, Dbl.fin_mul]
  have := key m le_rfl
  simpa [dotProduct, hi] using this

theorem dot_zeros_right (A : Matrix Dbl) (m n p : Nat) (hA : IsShape A m n)
    (hfin : AllFinite A) (i j : Nat) (hi : i < m) (hj : j < p) :
    dotProduct A (zeros n p) i j n = 0 := by
  have key : ∀ q, q ≤ n → dotAcc A (zeros n p) i j 0 q = 0 := by
    intro q
    induction q with
    | zero => intro _; rfl
    | succ q ih =>
      intro hq
      rw [dotAcc_succ, ih (by omega), zeros_elem n p q j (by omega) hj]
      obtain ⟨x, hx⟩ := elem_finite A m n hA hfin i q hi (by omega)
      simp [hx, Dbl.zero_eq, Dbl.fin_add, Dbl.fin_mul]
  exact key n le_rfl

theorem dot_zeros_left (A : Matrix Dbl) (m n p : Nat) (hA : IsShape A m n)
    (hfin : AllFinite A) (i j : Nat) (hi : i < p) (hj : j < n) :
    dotProduct (zeros p m) A i j m = 0 := by
  have key : ∀ q, q ≤ m → dotAcc (zeros p m) A i j 0 q = 0 := by
    intro q
    induction q with
    | zero => intro _; rfl
    | succ q ih =>
      intro hq
      rw [dotAcc_succ, ih (by omega), zeros_elem p m i q hi (by omega)]
      obtain ⟨x, hx⟩ := elem_finite A m n hA hfin q j (by omega) hj
      simp [hx, Dbl.zero_eq, Dbl.fin_add, Dbl.fin_mul]
  exact key m le_rfl

/-- Claim C5 fails as stated: with an infinite element in `A` the product
`A * I` has a NaN where `A` has `1.0`, because `∞ * 0.0` is NaN. -/
theorem multiply_identity_counterexample :
    ∃ c, Plot.multiply (Heap.plenty 0) ⟨[[Dbl.inf false, Dbl.fin 1]], 1, 2⟩ (identity 2) = .ok c ∧
      get2 c.data 0 1 = .ok Dbl.nan ∧
      get2 (⟨[[Dbl.inf false, Dbl.fin 1]], 1, 2⟩ : Matrix Dbl).data 0 1 = .ok (Dbl.fin 1) :=
  ⟨⟨[[Dbl.inf false, Dbl.nan]], 1, 2⟩, rfl, rfl, rfl⟩

/-- Claim C5 as amended: for every `m × n` matrix `A` whose elements are all
finite, `multiply(A, I_n)` and `multiply(I_m, A)` both return `A`: the same
shape and every cell equal to the cell of `A`. -/
theorem multiply_identity_finite (h : Heap Dbl) (hs : h.Succeeds) (A : Matrix Dbl) (m n : Nat)
    (hA : IsShape A m n) (hfin : AllFinite A) :
    Plot.multiply h A (identity n) = .ok A ∧ Plot.multiply h (identity m) A = .ok A := by
  constructor
  · rw [plot_multiply_eq h hs A (identity n) m n n hA (isShape_identity n)]
    congr 1
    exact eq_of_shape A m n hA _ (fun i hi j hj => dot_identity_right A m n hA hfin i j hi hj)
  · rw [plot_multiply_eq h hs (identity m) A m m n (isShape_identity m) hA]
    congr 1
    exact eq_of_shape A m n hA _ (fun i hi j hj => dot_identity_left A m n hA hfin i j hi hj)

/-- Claim C5 as amended, the scenario of the specification: `[[1,2],[3,4]]`
times the `2 × 2` identity is `[[1,2],[3,4]]`. -/
theorem multiply_identity_finite_witness :
    Plot.multiply (Heap.plenty 0)
        ⟨[[Dbl.fin 1, Dbl.fin 2], [Dbl.fin 3, Dbl.fin 4]], 2, 2⟩ (identity 2)
      = .ok ⟨[[Dbl.fin 1, Dbl.fin 2], [Dbl.fin 3, Dbl.fin 4]], 2, 2⟩ ∧
    Plot.multiply (Heap.plenty 0) (identity 2)
        ⟨[[Dbl.fin 1, Dbl.fin 2], [Dbl.fin 3, Dbl.fin 4]], 2, 2⟩
      = .ok ⟨[[Dbl.fin 1, Dbl.fin 2], [Dbl.fin 3, Dbl.fin 4]], 2, 2⟩ :=
  multiply_identity_finite (Heap.plenty 0) (fun _ => rfl)
    ⟨[[Dbl.fin 1, Dbl.fin 2], [Dbl.fin 3, Dbl.fin 4]], 2, 2⟩ 2 2 (by decide) (by decide)

/-- Claim C6 fails as stated: with an infinite element in `A` the product of
`A` and the all-zero matrix has a NaN, because `∞ * 0.0` is NaN; the same on
the other side. -/
theorem multiply_zeros_counterexample :
    Plot.multiply (Heap.plenty 0) ⟨[[Dbl.inf false]], 1, 1⟩ (zeros 1 1)
      = .ok ⟨[[Dbl.nan]], 1, 1⟩ ∧
    Plot.multiply (Heap.plenty 0) (zeros 1 1) ⟨[[Dbl.inf false]], 1, 1⟩
      = .ok ⟨[[Dbl.nan]], 1, 1⟩ ∧
    Dbl.nan ≠ 0 :=
  ⟨rfl, rfl, by decide⟩

/-- Claim C6 as amended: for every `m × n` matrix `A` whose elements are all
finite, `multiply(A, Z)` with the all-zero `n × p` matrix `Z` is the all-zero
`m × p` matrix, and `multiply(Z', A)` with the all-zero `p × m` matrix is the
all-zero `p × n` matrix. -/
theorem multiply_zeros_finite (h : Heap Dbl) (hs : h.Succeeds) (A : Matrix Dbl) (m n p : Nat)
    (hA : IsShape A m n) (hfin : AllFinite A) :
    Plot.multiply h A (zeros n p) = .ok (zeros m p) ∧
      Plot.multiply h (zeros p m) A = .ok (zeros p n) := by
  constructor
  · rw [plot_multiply_eq h hs A (zeros n p) m n p hA (isShape_zeros n p)]
    congr 1
    unfold zeros
    congr 1
    exact tab_congr m p _ _ (fun i hi j hj => dot_zeros_right A m n p hA hfin i j hi hj)
  · rw [plot_multiply_eq h hs (zeros p m) A p m n (isShape_zeros p m) hA]
    congr 1
    unfold zeros
    congr 1
    exact tab_congr p n _ _ (fun i hi j hj => dot_zeros_left A m n p hA hfin i j hi hj)

/-- Claim C6 as amended, at a `2 × 2` matrix and all-zero `2 × 1` and `1 × 2`
matrices. -/
theorem multiply_zeros_finite_witness :
    Plot.multiply (Heap.plenty 0)
        ⟨[[Dbl.fin 1, Dbl.fin 2], [Dbl.fin 3, Dbl.fin 4]], 2, 2⟩ (zeros 2 1)
      = .ok (zeros 2 1) ∧
    Plot.multiply (Heap.plenty 0) (zeros 1 2)
        ⟨[[Dbl.fin 1, Dbl.fin 2], [Dbl.fin 3, Dbl.fin 4]], 2, 2⟩
      = .ok (zeros 1 2) :=
  multiply_zeros_finite (Heap.plenty 0) (fun _ => rfl)
    ⟨[[Dbl.fin 1, Dbl.fin 2], [Dbl.fin 3, Dbl.fin 4]], 2, 2⟩ 2 2 1 (by decide) (by decide)

/-! ## Rounding to `double` -/

theorem roundEven_bounds (x : ℚ) : ⌊x⌋ ≤ roundEven x ∧ roundEven x ≤ ⌊x⌋ + 1 := by
  unfold roundEven
  split_ifs <;> constructor <;> omega

theorem roundEven_mono (x y : ℚ) (hxy : x ≤ y) : roundEven x ≤ roundEven y := by
  have hf : ⌊x⌋ ≤ ⌊y⌋ := Int.floor_mono hxy
  rcases hf.eq_or_lt with he | hlt
  · unfold roundEven
    rw [he]
    have hx : x - (⌊y⌋ : ℚ) ≤ y - (⌊y⌋ : ℚ) := by linarith
    split_ifs <;> first | omega | (exfalso; linarith)
  · have h1 := (roundEven_bounds x).2
    have h2 := (roundEven_bounds y).1
    omega

theorem roundEven_intCast (z : ℤ) : roundEven (z : ℚ) = z := by
  unfold roundEven
  simp

theorem nearest53_nonneg (q : ℚ) (hq : 0 < q) : 0 ≤ nearest53 q := by
  have hu : (0 : ℚ) < (2 : ℚ) ^ (exponent q - 52) := by positivity
  unfold nearest53
  apply mul_nonneg _ hu.le
  have h0 : (0 : ℤ) ≤ ⌊q / (2 : ℚ) ^ (exponent q - 52)⌋ :=
    Int.floor_nonneg.mpr (div_nonneg hq.le hu.le)
  have := (roundEven_bounds (q / (2 : ℚ) ^ (exponent q - 52))).1
  exact_mod_cast le_trans h0 this

theorem nearest53_le (q : ℚ) : nearest53 q ≤ (2 : ℚ) ^ (exponent q + 1) := by
  have hu : (0 : ℚ) < (2 : ℚ) ^ (exponent q - 52) := by positivity
  have h2 : q < ((2 : ℕ) : ℚ) ^ (Int.log 2 q + 1) := Int.lt_zpow_succ_log_self (by norm_num) q
  simp only [Nat.cast_ofNat] at h2
  have h3 : (2 : ℚ) ^ (Int.log 2 q + 1) ≤ (2 : ℚ) ^ (exponent q + 1) :=
    zpow_le_zpow_right₀ (by norm_num) (by unfold exponent; omega)
  have e2 : (2 : ℚ) ^ (exponent q + 1)
      = (2 : ℚ) ^ (53 : ℕ) * (2 : ℚ) ^ (exponent q - 52) := by
    rw [← zpow_natCast, ← zpow_add₀ (by norm_num)]
    congr 1
    omega
  have l2 : q / (2 : ℚ) ^ (exponent q - 52) < (2 : ℚ) ^ (53 : ℕ) := by
    rw [div_lt_iff₀ hu, ← e2]; exact lt_of_lt_of_le h2 h3
  have g2 : ⌊q / (2 : ℚ) ^ (exponent q - 52)⌋ < ((2 : ℤ) ^ (53 : ℕ)) := by
    rw [Int.floor_lt]
    push_cast
    exact l2
  have b2 := (roundEven_bounds (q / (2 : ℚ) ^ (exponent q - 52))).2
  have f2 : roundEven (q / (2 : ℚ) ^ (exponent q - 52)) ≤ ((2 : ℤ) ^ (53 : ℕ)) := by omega
  unfold nearest53
  rw [e2]
  apply mul_le_mul_of_nonneg_right _ hu.le
  exact_mod_cast f2

theorem le_nearest53 (q : ℚ) (hq : 0 < q) (hn : -1022 ≤ Int.log 2 q) :
    (2 : ℚ) ^ (exponent q) ≤ nearest53 q := by
  have he : exponent q = Int.log 2 q := by unfold exponent; omega
  have hu : (0 : ℚ) < (2 : ℚ) ^ (exponent q - 52) := by positivity
  have h1 : ((2 : ℕ) : ℚ) ^ (Int.log 2 q) ≤ q := Int.zpow_log_le_self (by norm_num) hq
  simp only [Nat.cast_ofNat] at h1
  rw [← he] at h1
  have e1 : (2 : ℚ) ^ (exponent q) = (2 : ℚ) ^ (52 : ℕ) * (2 : ℚ) ^ (exponent q - 52) := by
    rw [← zpow_natCast, ← zpow_add₀ (by norm_num)]
    congr 1
    omega
  have l1 : (2 : ℚ) ^ (52 : ℕ) ≤ q / (2 : ℚ) ^ (exponent q - 52) := by
    rw [le_div_iff₀ hu, ← e1]; exact h1
  have g1 : ((2 : ℤ) ^ (52 : ℕ)) ≤ ⌊q / (2 : ℚ) ^ (exponent q - 52)⌋ := by
    rw [Int.le_floor]
    push_cast
    exact l1
  have b1 := (roundEven_bounds (q / (2 : ℚ) ^ (exponent q - 52))).1
  have f1 : ((2 : ℤ) ^ (52 : ℕ)) ≤ roundEven (q / (2 : ℚ) ^ (exponent q - 52)) := by omega
  unfold nearest53
  rw [e1]
  apply mul_le_mul_of_nonneg_right _ hu.le
  exact_mod_cast f1

theorem nearest53_mono (x y : ℚ) (hx : 0 < x) (hxy : x ≤ y) : nearest53 x ≤ nearest53 y := by
  have hy : 0 < y := lt_of_lt_of_le hx hxy
  have hl : Int.log 2 x ≤ Int.log 2 y := Int.log_mono_right hx hxy
  have hE : exponent x ≤ exponent y := by unfold exponent; omega
  rcases hE.eq_or_lt with he | hlt
  · unfold nearest53
    rw [he]
    have hu : (0 : ℚ) < (2 : ℚ) ^ (exponent y - 52) := by positivity
    apply mul_le_mul_of_nonneg_right _ hu.le
    have := roundEven_mono _ _ (div_le_div_of_nonneg_right hxy hu.le)
    exact_mod_cast this
  · have hn : -1022 ≤ Int.log 2 y := by
      unfold exponent at hlt
      omega
    calc nearest53 x ≤ (2 : ℚ) ^ (exponent x + 1) := nearest53_le x
      _ ≤ (2 : ℚ) ^ (exponent y) := zpow_le_zpow_right₀ (by norm_num) (by omega)
      _ ≤ nearest53 y := le_nearest53 y hy hn

theorem round53_two_zpow (k : ℤ) (hk : -1022 ≤ k) : round53 ((2 : ℚ) ^ k) = (2 : ℚ) ^ k := by
  have hpos : (0 : ℚ) < (2 : ℚ) ^ k := by positivity
  have hlog : Int.log 2 ((2 : ℚ) ^ k) = k := by
    have := Int.log_zpow (R := ℚ) (b := 2) (by norm_num) k
    simpa using this
  have hE : exponent ((2 : ℚ) ^ k) = k := by
    unfold exponent
    rw [hlog]
    omega
  have hq : (2 : ℚ) ^ k / (2 : ℚ) ^ (k - 52) = ((2 ^ 52 : ℤ) : ℚ) := by
    rw [← zpow_sub₀ (by norm_num)]
    have : k - (k - 52) = (52 : ℕ) := by omega
    rw [this, zpow_natCast]
    norm_num
  simp only [round53, hpos.ne', if_false, hpos, if_true, nearest53, hE, hq, roundEven_intCast]
  have : (2 : ℚ) ^ k = (2 : ℚ) ^ (52 : ℕ) * (2 : ℚ) ^ (k - 52) := by
    rw [← zpow_natCast, ← zpow_add₀ (by norm_num)]
    congr 1
    omega
  rw [this]
  norm_num

/-- Rounding to 53 significant bits, ties to even, is a rounding in the sense
of `IsRounding`. -/
theorem isRounding_round53 : IsRounding round53 := by
  refine ⟨?_, by simp [round53], ?_⟩
  · intro x y hx hxy
    rcases hx.eq_or_lt with h0 | hpos
    · subst h0
      rcases hxy.eq_or_lt with h1 | hy
      · rw [← h1]
      · simp only [round53, if_true, hy.ne', if_false, hy]
        exact nearest53_nonneg y hy
    · have hy : 0 < y := lt_of_lt_of_le hpos hxy
      simp only [round53, hpos.ne', hy.ne', if_false, hpos, hy, if_true]
      exact nearest53_mono x y hpos hxy
  · have h := round53_two_zpow 0 (by norm_num)
    simpa using h

/-! ## Associativity over exact arithmetic -/

theorem dot_eq_sum {α : Type} [Semiring α] (a b : Matrix α) (i j n : Nat) :
    dotProduct a b i j n = ∑ k in Finset.range n, a.elem i k * b.elem k j := by
  unfold dotProduct
  induction n with
  | zero => rfl
  | succ n ih => rw [dotAcc_succ, ih, Finset.sum_range_succ]

theorem dot_assoc {α : Type} [Semiring α] (A B C : Matrix α) (m n p q : Nat)
    (i j : Nat) (hi : i < m) (hj : j < q) :
    dotProduct (⟨tab m p (fun i j => dotProduct A B i j n), m, p⟩ : Matrix α) C i j p
      = dotProduct A (⟨tab n q (fun i j => dotProduct B C i j p), n, q⟩ : Matrix α) i j n := by
  rw [dot_eq_sum, dot_eq_sum]
  have h1 : ∀ l ∈ Finset.range p,
      (⟨tab m p (fun i j => dotProduct A B i j n), m, p⟩ : Matrix α).elem i l * C.elem l j
        = ∑ k in Finset.range n, A.elem i k * B.elem k l * C.elem l j := by
    intro l hl
    rw [elem_tab m p _ _ _ i l hi (Finset.mem_range.mp hl), dot_eq_sum, Finset.sum_mul]
  have h2 : ∀ k ∈ Finset.range n,
      A.elem i k * (⟨tab n q (fun i j => dotProduct B C i j p), n, q⟩ : Matrix α).elem k j
        = ∑ l in Finset.range p, A.elem i k * B.elem k l * C.elem l j := by
    intro k hk
    rw [elem_tab n q _ _ _ k j (Finset.mem_range.mp hk) hj, dot_eq_sum, Finset.mul_sum]
    apply Finset.sum_congr rfl
    intro l _
    rw [mul_assoc]
  rw [Finset.sum_congr rfl h1, Finset.sum_congr rfl h2, Finset.sum_comm]

theorem dbl_round_two_zpow (k : ℤ) (hk : -1022 ≤ k) (hk2 : k < 1024) :
    Dbl.round (Dbl.fin ((2 : ℚ) ^ k)) = Dbl.fin ((2 : ℚ) ^ k) := by
  have hlt : (2 : ℚ) ^ k < (2 : ℚ) ^ (1024 : ℤ) := zpow_lt_zpow_right₀ (by norm_num) hk2
  have hpos : (0 : ℚ) < (2 : ℚ) ^ k := by positivity
  simp only [Dbl.round, round53_two_zpow k hk, abs_of_pos hpos, not_le.mpr hlt, if_false]

theorem dbl_round_overflow :
    Dbl.round (Dbl.fin ((2 : ℚ) ^ (1024 : ℤ))) = Dbl.inf false := by
  have hpos : (0 : ℚ) < (2 : ℚ) ^ (1024 : ℤ) := by positivity
  simp only [Dbl.round, round53_two_zpow 1024 (by norm_num), abs_of_pos hpos, le_refl, if_true,
    not_lt.mpr hpos.le, decide_False]

theorem dbl_round_inf (s : Bool) : Dbl.round (Dbl.inf s) = Dbl.inf s := rfl

theorem binary64_add (x y : Dbl) :
    ((⟨x⟩ : Binary64) + ⟨y⟩) = ⟨Dbl.round (x + y)⟩ := rfl

theorem binary64_mul (x y : Dbl) :
    ((⟨x⟩ : Binary64) * ⟨y⟩) = ⟨Dbl.round (x * y)⟩ := rfl

theorem binary64_zero : (0 : Binary64) = ⟨Dbl.fin 0⟩ := rfl

/-- The value `(double)rand() / (double)RAND_MAX` of call number `k`. -/
theorem init_row {α : Type} [IntCast α] [Div α] (RAND_MAX : Int) (rand : Nat → Int)
    (R C : Nat) (g : Nat → Nat → α) (i : Nat) (hi : i < R) (n : Nat) :
    (List.range C).foldlM
        (fun (st : List (List α) × Nat) (j : Nat) => do
          let d ← set2 st.1 i j (((rand st.2 : Int) : α) / ((RAND_MAX : Int) : α))
          pure (d, st.2 + 1))
        (tab R C g, n)
      = .ok (tab R C (fun i' j' =>
          if i' = i then ((rand (n + j') : Int) : α) / ((RAND_MAX : Int) : α) else g i' j'),
        n + C) := by
  have key : ∀ q, q ≤ C →
      (List.range q).foldlM
        (fun (st : List (List α) × Nat) (j : Nat) => do
          let d ← set2 st.1 i j (((rand st.2 : Int) : α) / ((RAND_MAX : Int) : α))
          pure (d, st.2 + 1))
        (tab R C g, n)
      = .ok (tab R C (fun i' j' =>
          if i' = i ∧ j' < q then ((rand (n + j') : Int) : α) / ((RAND_MAX : Int) : α)
          else g i' j'),
        n + q) := by
    intro q hq
    have h0 : (tab R C g, n)
        = (tab R C (fun i' j' =>
            if i' = i ∧ j' < 0 then ((rand (n + j') : Int) : α) / ((RAND_MAX : Int) : α)
            else g i' j'), n + 0) := by
      simp
    rw [h0]
    apply foldlM_range_ok _
      (fun q => (tab R C (fun i' j' =>
          if i' = i ∧ j' < q then ((rand (n + j') : Int) : α) / ((RAND_MAX : Int) : α)
          else g i' j'), n + q))
    intro j hj
    beta_reduce
    rw [set2_tab R C _ i j _ hi (by omega), ok_bind]
    simp only [pure, Except.pure]
    congr 2
    congr 1
    funext i' j'
    simp only [upd]
    by_cases h1 : i' = i
    · by_cases h2 : j' = j
      · subst h1; subst h2; simp
      · by_cases h3 : j' < j
        · have : j' < j + 1 := by omega
          simp [h1, h2, h3, this]
        · have : ¬ j' < j + 1 := by omega
          simp [h1, h2, h3, this]
    · simp [h1]
  rw [key C le_rfl]
  congr 2
  apply tab_congr
  intro i' _ j' hj'
  simp [hj']

/-- The result of `init_matrix_rand` on an `r × c` matrix in closed form: cell
`(i, j)` is filled from call number `calls + i * c + j` of `rand()`. -/
theorem init_matrix_rand_eq {α : Type} [IntCast α] [Div α] (RAND_MAX : Int) (rand : Nat → Int)
    (m : Matrix α) (r c : Nat) (hm : IsShape m r c) (g : Nat → Nat → α)
    (hd : m.data = tab r c g) (calls : Nat) :
    init_matrix_rand RAND_MAX rand m calls
      = .ok (⟨tab r c (fun i j =>
            ((rand (calls + i * c + j) : Int) : α) / ((RAND_MAX : Int) : α)), m.rows, m.cols⟩,
          calls + r * c) := by
  have key : ∀ q, q ≤ r →
      (List.range q).foldlM
        (fun (st : List (List α) × Nat) (i : Nat) =>
          (List.range c).foldlM
            (fun (st : List (List α) × Nat) (j : Nat) => do
              let d ← set2 st.1 i j (((rand st.2 : Int) : α) / ((RAND_MAX : Int) : α))
              pure (d, st.2 + 1))
            st)
        (tab r c g, calls)
      = .ok (tab r c (fun i' j' =>
          if i' < q then ((rand (calls + i' * c + j') : Int) : α) / ((RAND_MAX : Int) : α)
          else g i' j'),
        calls + q * c) := by
    intro q hq
    have h0 : (tab r c g, calls)
        = (tab r c (fun i' j' =>
            if i' < 0 then ((rand (calls + i' * c + j') : Int) : α) / ((RAND_MAX : Int) : α)
            else g i' j'), calls + 0 * c) := by
      simp
    rw [h0]
    apply foldlM_range_ok _
      (fun q => (tab r c (fun i' j' =>
          if i' < q then ((rand (calls + i' * c + j') : Int) : α) / ((RAND_MAX : Int) : α)
          else g i' j'), calls + q * c))
    intro i hi
    beta_reduce
    rw [init_row RAND_MAX rand r c _ i (by omega) (calls + i * c)]
    congr 2
    · congr 1
      funext i' j'
      by_cases h1 : i' = i
      · subst h1; simp
      · by_cases h3 : i' < i
        · have : i' < i + 1 := by omega
          simp [h1, h3, this]
        · have : ¬ i' < i + 1 := by omega
          simp [h1, h3, this]
    · rw [Nat.succ_mul, Nat.add_assoc]
  obtain ⟨h1, h2, -, -⟩ := hm
  unfold init_matrix_rand
  rw [hd, h1, h2]
  simp only [Int.toNat_ofNat]
  rw [key r le_rfl]
  simp only [ok_bind, pure, Except.pure]
  congr 3
  apply tab_congr
  intro i hi j _
  simp [hi]

/-- The quotient `(double)r / (double)m` of two `int` values with `1 ≤ m`. -/
theorem cast_div_cast (rnd : ℚ → ℚ) (hrnd : IsRounding rnd) (r m : Int) (hm : 0 < m) :
    (((r : Int) : Rounded rnd) / ((m : Int) : Rounded rnd))
      = ⟨Dbl.fin (rnd (rnd (r : ℚ) / rnd (m : ℚ)))⟩ := by
  obtain ⟨hmono, -, h1⟩ := hrnd
  have hm1 : (1 : ℚ) ≤ (m : ℚ) := by exact_mod_cast hm
  have hge : (1 : ℚ) ≤ rnd (m : ℚ) := by
    have := hmono 1 (m : ℚ) zero_le_one hm1
    rwa [h1] at this
  have hne : ¬ rnd (m : ℚ) = 0 := by
    intro h
    rw [h] at hge
    exact absurd hge (by norm_num)
  show (⟨Dbl.div rnd (Dbl.fin (rnd (r : ℚ))) (Dbl.fin (rnd (m : ℚ)))⟩ : Rounded rnd) = _
  simp only [Dbl.div, hne, if_false]

/-- Claim C8 fails as stated: when `rand()` returns `RAND_MAX` (here `32767`)
the value stored is exactly `1.0`, which is not below `1.0`; so it is for the
exact quotient and for the quotient rounded to 53 significant bits. -/
theorem init_matrix_rand_counterexample :
    (∃ m calls, init_matrix_rand (α := ℚ) 32767 (fun _ => 32767) ⟨[[0]], 1, 1⟩ 0 = .ok (m, calls) ∧
      get2 m.data 0 0 = .ok 1 ∧ ¬ ((1 : ℚ) < 1)) ∧
    (∃ m calls, init_matrix_rand (α := Rounded round53) 32767 (fun _ => 32767)
        ⟨[[⟨Dbl.nan⟩]], 1, 1⟩ 0 = .ok (m, calls) ∧
      get2 m.data 0 0 = .ok ⟨Dbl.fin 1⟩ ∧ ¬ ((1 : ℚ) < 1)) := by
  constructor
  · refine ⟨_, _, init_matrix_rand_eq 32767 (fun _ => 32767) ⟨[[0]], 1, 1⟩ 1 1 (by decide)
      (fun _ _ => 0) rfl 0, ?_, lt_irrefl 1⟩
    rw [get2_tab 1 1 _ 0 0 (by decide) (by decide)]
    norm_num
  · refine ⟨_, _, init_matrix_rand_eq 32767 (fun _ => 32767)
      (⟨[[⟨Dbl.nan⟩]], 1, 1⟩ : Matrix (Rounded round53)) 1 1
      (by decide) (fun _ _ => (⟨Dbl.nan⟩ : Rounded round53)) rfl 0, ?_, lt_irrefl 1⟩
    rw [get2_tab 1 1 _ 0 0 (by decide) (by decide),
      cast_div_cast round53 isRounding_round53 32767 32767 (by decide)]
    have hne : ¬ round53 ((32767 : Int) : ℚ) = 0 := by
      intro h
      have := isRounding_round53.1 1 ((32767 : Int) : ℚ) zero_le_one (by norm_num)
      rw [isRounding_round53.2.2, h] at this
      exact absurd this (by norm_num)
    rw [div_self hne, isRounding_round53.2.2]

/-- Claim C8 as amended: for every `r × c` matrix `m` of `double` and every
sequence of values of `rand()`, each in `0..RAND_MAX`, `init_matrix_rand(m)`
assigns to every element `m[i][j]` with `i < r` and `j < c` the finite value
`v` that is the rounded quotient `(double)rand() / (double)RAND_MAX` of its
own call, with `0 ≤ v ≤ 1`; the upper bound is inclusive, `v` is `1` when that
call returned `RAND_MAX`.  It holds for every rounding `rnd`. -/
theorem init_matrix_rand_range (rnd : ℚ → ℚ) (hrnd : IsRounding rnd) (RAND_MAX : Int)
    (hR : 0 < RAND_MAX) (rand : Nat → Int) (hrand : ∀ k, 0 ≤ rand k ∧ rand k ≤ RAND_MAX)
    (m : Matrix (Rounded rnd)) (r c : Nat) (hm : IsShape m r c) (calls : Nat) :
    ∃ m' calls', init_matrix_rand RAND_MAX rand m calls = .ok (m', calls') ∧
      IsShape m' r c ∧
      ∀ i j, i < r → j < c →
        ∃ v : ℚ, get2 m'.data i j = .ok ⟨Dbl.fin v⟩ ∧
          v = rnd (rnd ((rand (calls + i * c + j) : Int) : ℚ) / rnd ((RAND_MAX : Int) : ℚ)) ∧
          0 ≤ v ∧ v ≤ 1 ∧ (rand (calls + i * c + j) = RAND_MAX → v = 1) := by
  refine ⟨_, _, init_matrix_rand_eq RAND_MAX rand m r c hm m.elem (shape_data m r c hm) calls,
    ?_, ?_⟩
  · obtain ⟨h1, h2, -, -⟩ := hm
    rw [h1, h2]
    exact isShape_tab r c _
  · intro i j hi hj
    have hcell := cast_div_cast rnd hrnd (rand (calls + i * c + j)) RAND_MAX hR
    obtain ⟨hmono, h0, h1⟩ := hrnd
    obtain ⟨hr0, hrM⟩ := hrand (calls + i * c + j)
    have hM1 : (1 : ℚ) ≤ (RAND_MAX : ℚ) := by exact_mod_cast hR
    have hge : (1 : ℚ) ≤ rnd (RAND_MAX : ℚ) := by
      have := hmono 1 (RAND_MAX : ℚ) zero_le_one hM1
      rwa [h1] at this
    have hpos : (0 : ℚ) < rnd (RAND_MAX : ℚ) := lt_of_lt_of_le zero_lt_one hge
    have hr0' : (0 : ℚ) ≤ (rand (calls + i * c + j) : ℚ) := by exact_mod_cast hr0
    have hrM' : (rand (calls + i * c + j) : ℚ) ≤ (RAND_MAX : ℚ) := by exact_mod_cast hrM
    have hn0 : 0 ≤ rnd (rand (calls + i * c + j) : ℚ) := by
      have := hmono 0 _ le_rfl hr0'
      rwa [h0] at this
    have hnM : rnd (rand (calls + i * c + j) : ℚ) ≤ rnd (RAND_MAX : ℚ) := hmono _ _ hr0' hrM'
    have hq0 : 0 ≤ rnd (rand (calls + i * c + j) : ℚ) / rnd (RAND_MAX : ℚ) :=
      div_nonneg hn0 hpos.le
    have hq1 : rnd (rand (calls + i * c + j) : ℚ) / rnd (RAND_MAX : ℚ) ≤ 1 :=
      (div_le_one hpos).mpr hnM
    refine ⟨_, ?_, rfl, ?_, ?_, ?_⟩
    · rw [get2_tab r c _ i j hi hj, hcell]
    · have := hmono 0 _ le_rfl hq0
      rwa [h0] at this
    · have := hmono _ 1 hq0 hq1
      rwa [h1] at this
    · intro he
      rw [he, div_self hpos.ne', h1]

/-- Claim C8 as amended, at a `2 × 2` matrix whose storage holds NaN, under
rounding to 53 significant bits, with `RAND_MAX = 32767` and `rand()`
returning `0`, `32767`, `2`, `3`, ... -/
theorem init_matrix_rand_range_witness :
    ∃ m' calls',
      init_matrix_rand (α := Rounded round53) 32767
        (fun k => if k = 1 then 32767 else ((k % 32768 : Nat) : Int))
        ⟨[[⟨Dbl.nan⟩, ⟨Dbl.nan⟩], [⟨Dbl.nan⟩, ⟨Dbl.nan⟩]], 2, 2⟩ 0
        = .ok (m', calls') ∧
      IsShape m' 2 2 ∧
      ∀ i j, i < 2 → j < 2 →
        ∃ v : ℚ, get2 m'.data i j = .ok ⟨Dbl.fin v⟩ ∧
          v = round53 (round53
                (((if 0 + i * 2 + j = 1 then 32767
                    else (((0 + i * 2 + j) % 32768 : Nat) : Int)) : Int) : ℚ)
              / round53 ((32767 : Int) : ℚ)) ∧
          0 ≤ v ∧ v ≤ 1 ∧
          ((if 0 + i * 2 + j = 1 then 32767
              else (((0 + i * 2 + j) % 32768 : Nat) : Int)) = 32767 → v = 1) :=
  init_matrix_rand_range round53 isRounding_round53 32767 (by decide)
    (fun k => if k = 1 then 32767 else ((k % 32768 : Nat) : Int))
    (fun k => by
      show 0 ≤ (if k = 1 then (32767 : Int) else ((k % 32768 : Nat) : Int)) ∧
        (if k = 1 then (32767 : Int) else ((k % 32768 : Nat) : Int)) ≤ 32767
      split <;> omega)
    ⟨[[⟨Dbl.nan⟩, ⟨Dbl.nan⟩], [⟨Dbl.nan⟩, ⟨Dbl.nan⟩]], 2, 2⟩ 2 2 (by decide) 0

/-! ## The entry point of the parametrized variant -/

/-- Claim C9: in the parametrized variant, when the number of positional
arguments `argc - 1` is not `1`, `main` writes the usage message
`Usage: <program> <size>` on standard error and returns `1`, and that is all
it does: no matrix is created, filled or multiplied.  With exactly one
positional argument `main` does not write the usage message: its first act is
`srand(time(NULL))`. -/
theorem main_usage_path {α : Type} [Zero α] [Add α] [Mul α] [IntCast α] [Div α] (w : World α)
    (prog : String) (args : List String) :
    (args.length ≠ 1 →
      Plot.main w prog args
        = { trace := [Event.stderr ("Usage: " ++ prog ++ " <size>\n")], status := .ok 1 }) ∧
    (args.length = 1 →
      (∀ text, Event.stderr text ∉ (Plot.main w prog args).trace) ∧
      (Plot.main w prog args).trace.head? = some (Event.srand w.time)) := by
  constructor
  · intro hne
    have hc : ((prog :: args).length : Int) ≠ 2 := by
      simp only [List.length_cons]
      omega
    unfold Plot.main
    dsimp only
    rw [if_pos hc]
    rfl
  · intro he
    have hc : ¬ ((prog :: args).length : Int) ≠ 2 := by
      simp only [List.length_cons]
      omega
    unfold Plot.main
    dsimp only
    rw [if_neg hc]
    constructor
    · intro text
      repeat' split
      all_goals simp
    · repeat' split
      all_goals simp

/-- Claim C9 with no positional argument and with two, and a run with one. -/
theorem main_usage_path_witness :
    Plot.main (α := ℚ)
        ⟨Heap.plenty 0, 32767, fun k => (k : Int), fun _ => 2, 0, (0, 0), (1, 5)⟩ "bench" []
      = { trace := [Event.stderr "Usage: bench <size>\n"], status := .ok 1 } ∧
    Plot.main (α := ℚ)
        ⟨Heap.plenty 0, 32767, fun k => (k : Int), fun _ => 2, 0, (0, 0), (1, 5)⟩ "bench"
        ["2", "3"]
      = { trace := [Event.stderr "Usage: bench <size>\n"], status := .ok 1 } ∧
    (∀ text, Event.stderr text ∉ (Plot.main (α := ℚ)
        ⟨Heap.plenty 0, 32767, fun k => (k : Int), fun _ => 2, 0, (0, 0), (1, 5)⟩ "bench"
        ["2"]).trace) :=
  ⟨(main_usage_path _ "bench" []).1 (by decide),
   (main_usage_path _ "bench" ["2", "3"]).1 (by decide),
   ((main_usage_path _ "bench" ["2"]).2 rfl).1⟩

end MatrixBench
